import Mathlib

/-!
# Cell references of xlnt

A shallow embedding of `source/cell/cell_reference.cpp`: the bounds-checked
constructor, the text constructor with `split_reference`, `to_string`, the
comparison operators, the hash, `make_absolute`, `to_range` and `make_offset`,
followed by the properties proved about them.

Strings (`xlnt::string`) are lists of characters; the unsigned column index and
row are natural numbers, reduced modulo 2^32 where the code computes with them;
a function that may throw returns `Except`.
-/

namespace xlnt

/-! ## Characters, exceptions, limits -/

/-- The test `std::isalpha(c, std::locale::classic())`: an ASCII letter. -/
def isalpha (c : Char) : Bool :=
  (65 ≤ c.toNat && c.toNat ≤ 90) || (97 ≤ c.toNat && c.toNat ≤ 122)

/-- The test `std::isdigit(c, std::locale::classic())`: an ASCII decimal digit. -/
def isdigit (c : Char) : Bool :=
  48 ≤ c.toNat && c.toNat ≤ 57

/-- The map `std::toupper(c, std::locale::classic())`: a lower-case ASCII letter
becomes its upper-case letter, every other character stays. -/
def toupper (c : Char) : Char :=
  if 97 ≤ c.toNat ∧ c.toNat ≤ 122 then Char.ofNat (c.toNat - 32) else c

/-- What the code can throw. The class `cell_coordinates_exception` has the two
constructors used in the source: from a column and a row (the kind the
specification calls `CoordinateOutOfRange`) and from the reference text (the
kind it calls `MalformedReference`). `MalformedColumn` is the failure of the
column conversion, and `ConversionFailure` the failure of the row conversion,
both raised by helpers outside `cell_reference.cpp`. -/
inductive exception where
  | CoordinateOutOfRange (column row : Nat)
  | MalformedReference (reference_string : List Char)
  | MalformedColumn
  | ConversionFailure
deriving DecidableEq, Repr

instance instDecidableEqExcept {ε α : Type} [DecidableEq ε] [DecidableEq α] :
    DecidableEq (Except ε α) := fun a b =>
  match a, b with
  | .ok x, .ok y => if h : x = y then isTrue (by rw [h]) else isFalse (fun e => h (by cases e; rfl))
  | .error x, .error y =>
      if h : x = y then isTrue (by rw [h]) else isFalse (fun e => h (by cases e; rfl))
  | .ok _, .error _ => isFalse (fun e => by cases e)
  | .error _, .ok _ => isFalse (fun e => by cases e)

/-- The limits `constants::MaxRow()` and `constants::MaxColumn().index`. They are
declared in `detail/constants.hpp`, whose values the source file does not fix,
so every definition that reads them takes them as a parameter. They are values
of the unsigned 32-bit types `row_t` and `column_t::index_t`, which the two
last fields record. -/
structure constants where
  MaxRow : Nat
  MaxColumn : Nat
  MaxRow_fits : MaxRow < 2 ^ 32
  MaxColumn_fits : MaxColumn < 2 ^ 32

/-- A sample pair of limits (2^20 rows, 2^14 columns) for concrete evaluations. -/
def sample_limits : constants :=
  { MaxRow := 1048576, MaxColumn := 16384,
    MaxRow_fits := by decide, MaxColumn_fits := by decide }

/-- The widest limits the unsigned 32-bit types allow, for concrete evaluations. -/
def widest_limits : constants :=
  { MaxRow := 4294967295, MaxColumn := 4294967295,
    MaxRow_fits := by decide, MaxColumn_fits := by decide }

/-! ## Column letters and decimal numbers (helpers outside the source file) -/

/-- Worker of `column_string`, with a recursion budget. -/
def column_string_aux : Nat → Nat → List Char
  | 0, _ => []
  | _, 0 => []
  | fuel + 1, n + 1 => column_string_aux fuel (n / 26) ++ [Char.ofNat (65 + n % 26)]

/-- Modelled from the spec: `column_t::column_string()` is not in the source file.
The specification (§2, §4.1) makes it the bijective base-26 upper-case letter
string of the index: "A"…"Z", "AA", …  The budget `index` always suffices. -/
def column_string (index : Nat) : List Char :=
  column_string_aux index index

/-- Modelled from the spec: the conversion `column_t(string)` used by `set_column`
is not in the source file. By §4.1 `from_letters` fails with `MalformedColumn`
when the text is empty or contains a non-letter, and is otherwise the inverse
of the letter string, read case-insensitively. -/
def column_index_from_string (s : List Char) : Except exception Nat :=
  if s = [] ∨ s.all isalpha = false then .error .MalformedColumn
  else .ok (s.foldl (fun acc c => acc * 26 + ((toupper c).toNat - 64)) 0)

/-- Worker of `string_from`, with a recursion budget. -/
def string_from_aux : Nat → Nat → List Char
  | 0, _ => []
  | fuel + 1, n =>
      if n < 10 then [Char.ofNat (48 + n)]
      else string_from_aux fuel (n / 10) ++ [Char.ofNat (48 + n % 10)]

/-- Modelled from the spec: `string::from(row_)` is not in the source file; by
§4.2 it is "the decimal row number", that is the decimal digits of the row
without leading zeros. The budget `n + 1` always suffices. -/
def string_from (n : Nat) : List Char :=
  string_from_aux (n + 1) n

/-- The decimal value of a list of digit characters. -/
def decimal_value (s : List Char) : Nat :=
  s.foldl (fun acc c => acc * 10 + (c.toNat - 48)) 0

/-- Modelled from the spec: `string::to<row_t>()` is not in the source file; the
specification only says that the row text is resolved as digits to a row. On
a non-empty text of decimal digits the model returns their decimal value as a
`row_t`, an unsigned 32-bit value: the decimal value itself when it is below
2^32, and its residue modulo 2^32 otherwise. What the helper does on a value
that does not fit, or on any other text, is not specified: on a text that is
not a non-empty run of digits the model fails with `ConversionFailure`, and no
result below is stated about such a text. -/
def string_to_row (s : List Char) : Except exception Nat :=
  if s ≠ [] ∧ s.all isdigit = true then .ok (decimal_value s % 2 ^ 32)
  else .error .ConversionFailure

/-! ## The cell reference -/

/-- The data members of `cell_reference`, in the order of the constructor's
initialiser list. `column_` stands for `column_.index`. -/
structure cell_reference where
  column_ : Nat
  row_ : Nat
  absolute_row_ : Bool
  absolute_column_ : Bool
deriving DecidableEq, Repr

/-- The constructor `cell_reference(column_t column_index, row_t row)`: stores
the coordinates with both flags cleared and throws
`cell_coordinates_exception(column_, row_)` outside the limits. -/
def cell_reference.of_column_row (k : constants) (column_index row : Nat) :
    Except exception cell_reference :=
  if row = 0 ∨ ¬ (row ≤ k.MaxRow) ∨ column_index = 0 ∨ ¬ (column_index ≤ k.MaxColumn) then
    .error (.CoordinateOutOfRange column_index row)
  else
    .ok { column_ := column_index, row_ := row, absolute_row_ := false, absolute_column_ := false }

/-- The two locals of the scanning loop of `split_reference`. -/
structure scan_state where
  column_part : Bool
  column_string : List Char
deriving DecidableEq, Repr

/-- One iteration of the loop `for (auto character : reference_string)`. -/
def scan_step (reference_string : List Char) (st : scan_state) (character : Char) :
    Except exception scan_state :=
  let upper := toupper character
  if isalpha character then
    if st.column_part then
      .ok { st with column_string := st.column_string ++ [upper] }
    else
      .error (.MalformedReference reference_string)
  else if character = '$' then
    if st.column_part then
      if st.column_string.isEmpty then
        .ok { st with column_string := st.column_string ++ [upper] }
      else
        .ok { st with column_part := false }
    else
      .ok st
  else
    if st.column_part then
      .ok { st with column_part := false }
    else if !isdigit character then
      .error (.MalformedReference reference_string)
    else
      .ok st

/-- The loop of `split_reference` over the characters still to be read. -/
def scan_from (reference_string : List Char) : List Char → scan_state → Except exception scan_state
  | [], st => .ok st
  | character :: rest, st =>
      match scan_step reference_string st character with
      | .ok st1 => scan_from reference_string rest st1
      | .error e => .error e

/-- The whole loop, from `column_part = true` and an empty `column_string`. -/
def scan (reference_string : List Char) : Except exception scan_state :=
  scan_from reference_string reference_string { column_part := true, column_string := [] }

/-- What `split_reference` hands back: the pair `{ column_string, row }` and the
two flags written through the reference parameters. -/
structure split_result where
  first : List Char
  second : Nat
  absolute_column : Bool
  absolute_row : Bool
deriving DecidableEq, Repr

/-- The function `cell_reference::split_reference`. After the loop the row text
is `reference_string.substr(column_string.length())`; an empty row text throws;
a leading "$" of `column_string` sets `absolute_row`, a leading "$" of
`row_string` sets `absolute_column`, and each marker is dropped. Reading
`column_string[0]` of an empty buffer yields no "$". -/
def split_reference (reference_string : List Char) : Except exception split_result :=
  match scan reference_string with
  | .error e => .error e
  | .ok st =>
      let row_string := reference_string.drop st.column_string.length
      if row_string.length = 0 then
        .error (.MalformedReference reference_string)
      else
        let absolute_row := st.column_string.head? = some '$'
        let column_string := if absolute_row then st.column_string.drop 1 else st.column_string
        let absolute_column := row_string.head? = some '$'
        let row_string1 := if absolute_column then row_string.drop 1 else row_string
        match string_to_row row_string1 with
        | .error e => .error e
        | .ok row =>
            .ok { first := column_string, second := row,
                  absolute_column := absolute_column, absolute_row := absolute_row }

/-- Modelled from the spec: the inline setter `set_column(const string &)` is
declared in the class header, not in the source file; it stores the column
resolved from the letters (§4.1), failing as that conversion fails. -/
def cell_reference.set_column (r : cell_reference) (column_string : List Char) :
    Except exception cell_reference :=
  match column_index_from_string column_string with
  | .error e => .error e
  | .ok index => .ok { r with column_ := index }

/-- Modelled from the spec: the inline setter `set_row(row_t)` is declared in the
class header, not in the source file; by the data model (§3) the row is a plain
field, so the setter stores its argument. -/
def cell_reference.set_row (r : cell_reference) (row : Nat) : cell_reference :=
  { r with row_ := row }

/-- The constructor `cell_reference(const string &)`: `split_reference` writes
the two flags, then `set_column(split.first)` and `set_row(split.second)`.
The members not yet written when the setters run do not reach the result. -/
def cell_reference.of_string (s : List Char) : Except exception cell_reference :=
  match split_reference s with
  | .error e => .error e
  | .ok split =>
      let r : cell_reference :=
        { column_ := 0, row_ := 0,
          absolute_row_ := split.absolute_row, absolute_column_ := split.absolute_column }
      match r.set_column split.first with
      | .error e => .error e
      | .ok r1 => .ok (r1.set_row split.second)

/-- The method `cell_reference::to_string`. -/
def cell_reference.to_string (r : cell_reference) : List Char :=
  (if r.absolute_column_ then ['$'] else []) ++ column_string r.column_ ++
    (if r.absolute_row_ then ['$'] else []) ++ string_from r.row_

/-- The comparison `cell_reference::operator==`. -/
def cell_reference.operator_eq (self comparand : cell_reference) : Bool :=
  comparand.column_ == self.column_ &&
    comparand.row_ == self.row_ &&
    self.absolute_column_ == comparand.absolute_column_ &&
    self.absolute_row_ == comparand.absolute_row_

/-- The comparison `cell_reference::operator<`. -/
def cell_reference.operator_lt (self other : cell_reference) : Bool :=
  if self.row_ ≠ other.row_ then decide (self.row_ < other.row_)
  else decide (self.column_ < other.column_)

/-- The comparison `cell_reference::operator>`. -/
def cell_reference.operator_gt (self other : cell_reference) : Bool :=
  if self.row_ ≠ other.row_ then decide (self.row_ > other.row_)
  else decide (self.column_ > other.column_)

/-- The comparison `cell_reference::operator<=`. -/
def cell_reference.operator_le (self other : cell_reference) : Bool :=
  if self.row_ ≠ other.row_ then decide (self.row_ < other.row_)
  else decide (self.column_ ≤ other.column_)

/-- The comparison `cell_reference::operator>=`. -/
def cell_reference.operator_ge (self other : cell_reference) : Bool :=
  if self.row_ ≠ other.row_ then decide (self.row_ > other.row_)
  else decide (self.column_ ≥ other.column_)

/-- The functor `cell_reference_hash::operator()`:
`k.get_row() * constants::MaxColumn().index + k.get_column_index().index`,
computed in the unsigned 32-bit type of its operands `row_t` and
`column_t::index_t`, so modulo 2^32, and then widened to the `std::size_t`
returned. The accessors return the members. -/
def cell_reference_hash (k : constants) (r : cell_reference) : Nat :=
  (r.row_ * k.MaxColumn + r.column_) % 2 ^ 32

/-- Modelled from the spec: the inline setter `column_absolute(bool)` is declared
in the class header, not in the source file; by §3 the anchor flags are
independent booleans, so the setter stores its argument in the column flag. -/
def cell_reference.column_absolute (r : cell_reference) (absolute_column : Bool) :
    cell_reference :=
  { r with absolute_column_ := absolute_column }

/-- Modelled from the spec: the inline setter `row_absolute(bool)` is declared in
the class header, not in the source file; it stores its argument in the row
flag. -/
def cell_reference.row_absolute (r : cell_reference) (absolute_row : Bool) : cell_reference :=
  { r with absolute_row_ := absolute_row }

/-- The method `cell_reference::make_absolute`: `column_absolute(absolute_column)`
followed by `row_absolute(absolute_row)`. -/
def cell_reference.make_absolute (r : cell_reference) (absolute_column absolute_row : Bool) :
    cell_reference :=
  (r.column_absolute absolute_column).row_absolute absolute_row

/-- The two corners of a `range_reference` (§3). -/
structure range_reference where
  top_left_ : cell_reference
  bottom_right_ : cell_reference
deriving DecidableEq, Repr

/-- Modelled from the spec: the constructor
`range_reference(column_t, row_t, column_t, row_t)` is not in the source file.
By §3 a range holds its two corner references, and by §4.2 a reference built
from a column and a row goes through the bounds-checked constructor. -/
def range_reference.of_coordinates (k : constants)
    (column_index_start row_index_start column_index_end row_index_end : Nat) :
    Except exception range_reference :=
  match cell_reference.of_column_row k column_index_start row_index_start with
  | .error e => .error e
  | .ok top_left =>
      match cell_reference.of_column_row k column_index_end row_index_end with
      | .error e => .error e
      | .ok bottom_right => .ok { top_left_ := top_left, bottom_right_ := bottom_right }

/-- The method `cell_reference::to_range`:
`range_reference(column_, row_, column_, row_)`. -/
def cell_reference.to_range (k : constants) (r : cell_reference) :
    Except exception range_reference :=
  range_reference.of_coordinates k r.column_ r.row_ r.column_ r.row_

/-- The conversion `static_cast<int>` of an unsigned 32-bit value: the value
itself below 2^31, and the value minus 2^32 from there on. -/
def to_int (n : Nat) : Int :=
  if n % 2 ^ 32 < 2 ^ 31 then ((n % 2 ^ 32 : Nat) : Int) else ((n % 2 ^ 32 : Nat) : Int) - 2 ^ 32

/-- The conversions `static_cast<column_t>` and `static_cast<row_t>` of an `int`:
the value modulo 2^32. -/
def to_unsigned (i : Int) : Nat :=
  (i % 2 ^ 32).toNat

/-- The method `cell_reference::make_offset`: each coordinate is converted to
`int`, the offset is added, and the sum is converted back before it reaches the
bounds-checked constructor. The sum is the exact integer; a sum outside the
range of `int` is undefined in the source, and wrapping it to 32 bits would
give the same unsigned value. -/
def cell_reference.make_offset (k : constants) (r : cell_reference)
    (column_offset row_offset : Int) : Except exception cell_reference :=
  cell_reference.of_column_row k (to_unsigned (to_int r.column_ + column_offset))
    (to_unsigned (to_int r.row_ + row_offset))

/-! ## Vocabulary of the statements -/

/-- A character allowed by the loop after the first character of the row segment. -/
def row_character (c : Char) : Bool :=
  isdigit c || c == '$'

/-- The text behind an optional leading "$". -/
def after_anchor : List Char → List Char
  | [] => []
  | c :: t => if c = '$' then t else c :: t

/-- The optional leading "$" of a text. -/
def leading_anchor : List Char → List Char
  | [] => []
  | c :: _ => if c = '$' then ['$'] else []

/-- An optional anchor marker: "$" when the flag is set, nothing otherwise. -/
def anchor (b : Bool) : List Char :=
  if b then ['$'] else []

/-- The grammar of §6, `reference := [ "$" ] letters [ "$" ] digits`, with one or
more ASCII letters and one or more ASCII digits. -/
def matches_grammar (s : List Char) : Prop :=
  ∃ (a1 a2 : Bool) (letters digits : List Char),
    letters ≠ [] ∧ (∀ c ∈ letters, isalpha c = true) ∧
    digits ≠ [] ∧ (∀ c ∈ digits, isdigit c = true) ∧
    s = anchor a1 ++ letters ++ anchor a2 ++ digits

/-- The shape the loop and the empty-row check let through: an optional "$",
zero or more letters, one character that is not a letter, then only digits
and "$". -/
def scan_shape (s : List Char) : Prop :=
  ∃ (a : Bool) (letters : List Char) (c : Char) (R : List Char),
    s = anchor a ++ letters ++ c :: R ∧ (∀ x ∈ letters, isalpha x = true) ∧
    isalpha c = false ∧ (∀ x ∈ R, isdigit x = true ∨ x = '$')

/-- The kinds of failure, without what an exception carries. -/
inductive exception_kind where
  | CoordinateOutOfRange
  | MalformedReference
  | MalformedColumn
  | ConversionFailure
deriving DecidableEq, Repr

/-- The kind of an exception. -/
def exception.kind : exception → exception_kind
  | .CoordinateOutOfRange _ _ => .CoordinateOutOfRange
  | .MalformedReference _ => .MalformedReference
  | .MalformedColumn => .MalformedColumn
  | .ConversionFailure => .ConversionFailure

/-- Two outcomes of parsing agree: both fail with the same kind of exception, or
both succeed with equal references. -/
def same_outcome (a b : Except exception cell_reference) : Prop :=
  match a, b with
  | .ok x, .ok y => x.operator_eq y = true
  | .error e1, .error e2 => e1.kind = e2.kind
  | _, _ => False

/-- The two texts of `split_reference` at the reads of element 0, reached when
neither the loop nor the empty-row check has thrown: the column buffer
`column_string` and the row text `row_string`. -/
def texts_at_reads (reference_string : List Char) : Option (List Char × List Char) :=
  match scan reference_string with
  | .error _ => none
  | .ok st =>
      let row_string := reference_string.drop st.column_string.length
      if row_string.length = 0 then none else some (st.column_string, row_string)

/-- The form of the column buffer: at most one leading "$", then letters only. -/
def buffer_form (buf : List Char) : Prop :=
  ∃ (a : Bool) (letters : List Char), buf = anchor a ++ letters ∧
    ∀ c ∈ letters, isalpha c = true

/-- A signed value that fits the 32-bit `int`. -/
def fits_int (i : Int) : Prop :=
  -(2 ^ 31) ≤ i ∧ i < 2 ^ 31

instance instDecidableFitsInt (i : Int) : Decidable (fits_int i) := by
  unfold fits_int
  exact inferInstance

/-- A reference inside the grid: `1 ≤ column ≤ MaxColumn` and `1 ≤ row ≤ MaxRow`. -/
def cell_reference.valid (k : constants) (r : cell_reference) : Prop :=
  1 ≤ r.column_ ∧ r.column_ ≤ k.MaxColumn ∧ 1 ≤ r.row_ ∧ r.row_ ≤ k.MaxRow

instance instDecidableValid (k : constants) (r : cell_reference) : Decidable (r.valid k) := by
  unfold cell_reference.valid
  exact inferInstance

/-! ## Facts about characters -/

theorem isdigit_not_isalpha {c : Char} (h : isdigit c = true) : isalpha c = false := by
  simp only [isdigit, isalpha, Bool.and_eq_true, decide_eq_true_eq, Bool.or_eq_false_iff,
    Bool.and_eq_false_iff, decide_eq_false_iff_not] at *
  omega

theorem isalpha_ne_dollar {c : Char} (h : isalpha c = true) : c ≠ '$' := by
  rintro rfl
  revert h
  decide

theorem isdigit_ne_dollar {c : Char} (h : isdigit c = true) : c ≠ '$' := by
  rintro rfl
  revert h
  decide

theorem letterChar_facts (m : Nat) (h : m < 26) :
    isalpha (Char.ofNat (65 + m)) = true ∧ toupper (Char.ofNat (65 + m)) = Char.ofNat (65 + m) ∧
      (Char.ofNat (65 + m)).toNat - 64 = m + 1 := by
  interval_cases m <;> decide

theorem digitChar_facts (m : Nat) (h : m < 10) :
    isdigit (Char.ofNat (48 + m)) = true ∧ (Char.ofNat (48 + m)).toNat - 48 = m := by
  interval_cases m <;> decide

theorem isalpha_toupper {c : Char} (h : isalpha c = true) : isalpha (toupper c) = true := by
  unfold toupper
  split
  · rename_i hc
    have hn : ∀ n : Nat, 97 ≤ n ∧ n ≤ 122 → isalpha (Char.ofNat (n - 32)) = true := by
      intro n hn
      obtain ⟨h1, h2⟩ := hn
      interval_cases n <;> decide
    exact hn c.toNat hc
  · exact h

/-! ## The scanning loop in closed form -/

theorem scan_step_row (rs buf : List Char) (c : Char) :
    scan_step rs ⟨false, buf⟩ c =
      if row_character c = true then .ok ⟨false, buf⟩ else .error (.MalformedReference rs) := by
  unfold scan_step row_character
  by_cases ha : isalpha c = true
  · have h1 : isdigit c = false := by
      cases hd : isdigit c
      · rfl
      · rw [isdigit_not_isalpha hd] at ha; cases ha
    have h2 : c ≠ '$' := isalpha_ne_dollar ha
    simp [ha, h1, h2]
  · by_cases hd : c = '$'
    · subst hd; simp [ha]
    · cases hg : isdigit c <;> simp [ha, hd, hg]

theorem scan_from_row (rs buf : List Char) (R : List Char) :
    scan_from rs R ⟨false, buf⟩ =
      if R.all row_character = true then .ok ⟨false, buf⟩ else .error (.MalformedReference rs) := by
  induction R with
  | nil => simp [scan_from]
  | cons c R ih =>
    rw [scan_from, scan_step_row]
    by_cases hc : row_character c = true
    · simp [hc, ih]
    · simp [hc]

theorem scan_from_column (rs : List Char) (l buf : List Char)
    (h : buf ≠ [] ∨ l.head? ≠ some '$') :
    scan_from rs l ⟨true, buf⟩ =
      match l.dropWhile isalpha with
      | [] => .ok ⟨true, buf ++ (l.takeWhile isalpha).map toupper⟩
      | _ :: R =>
          if R.all row_character = true then
            .ok ⟨false, buf ++ (l.takeWhile isalpha).map toupper⟩
          else .error (.MalformedReference rs) := by
  induction l generalizing buf with
  | nil => simp [scan_from]
  | cons c t ih =>
    by_cases ha : isalpha c = true
    · have hstep : scan_step rs ⟨true, buf⟩ c = .ok ⟨true, buf ++ [toupper c]⟩ := by
        simp [scan_step, ha]
      rw [scan_from, hstep]
      simp only []
      rw [ih (buf ++ [toupper c]) (Or.inl (by simp))]
      simp [List.dropWhile_cons, List.takeWhile_cons, ha]
    · have hstep : scan_step rs ⟨true, buf⟩ c = .ok ⟨false, buf⟩ := by
        by_cases hd : c = '$'
        · subst hd
          have hb : buf ≠ [] := by
            rcases h with h | h
            · exact h
            · simp at h
          have hb2 : buf.isEmpty = false := by
            cases buf with
            | nil => exact absurd rfl hb
            | cons _ _ => rfl
          simp [scan_step, ha, hb2]
        · simp [scan_step, ha, hd]
      rw [scan_from, hstep]
      simp only []
      rw [scan_from_row]
      simp [List.dropWhile_cons, List.takeWhile_cons, ha]

theorem leading_anchor_append (s : List Char) : leading_anchor s ++ after_anchor s = s := by
  cases s with
  | nil => rfl
  | cons c t =>
    by_cases hc : c = '$'
    · simp [leading_anchor, after_anchor, hc]
    · simp [leading_anchor, after_anchor, hc]

theorem scan_closed (s : List Char) :
    scan s =
      match (after_anchor s).dropWhile isalpha with
      | [] => .ok ⟨true, leading_anchor s ++ ((after_anchor s).takeWhile isalpha).map toupper⟩
      | _ :: R =>
          if R.all row_character = true then
            .ok ⟨false, leading_anchor s ++ ((after_anchor s).takeWhile isalpha).map toupper⟩
          else .error (.MalformedReference s) := by
  cases s with
  | nil => simp [scan, scan_from, after_anchor, leading_anchor]
  | cons c t =>
    by_cases hc : c = '$'
    · subst hc
      have hstep : scan_step ('$' :: t) ⟨true, []⟩ '$' = .ok ⟨true, ['$']⟩ := by
        simp [scan_step, toupper]
      rw [scan, scan_from, hstep]
      simp only []
      rw [scan_from_column _ t ['$'] (Or.inl (by simp))]
      simp [after_anchor, leading_anchor]
    · rw [scan, scan_from_column _ (c :: t) [] (Or.inr (by simp [hc]))]
      simp [after_anchor, leading_anchor, hc]

theorem drop_buffer (s : List Char) :
    s.drop (leading_anchor s ++ ((after_anchor s).takeWhile isalpha).map toupper).length =
      (after_anchor s).dropWhile isalpha := by
  have h1 : (leading_anchor s ++ ((after_anchor s).takeWhile isalpha).map toupper).length =
      (leading_anchor s ++ (after_anchor s).takeWhile isalpha).length := by simp
  have h2 : s = (leading_anchor s ++ (after_anchor s).takeWhile isalpha) ++
      (after_anchor s).dropWhile isalpha := by
    rw [List.append_assoc, List.takeWhile_append_dropWhile, leading_anchor_append]
  rw [h1]
  generalize leading_anchor s ++ (after_anchor s).takeWhile isalpha = front at h2
  generalize (after_anchor s).dropWhile isalpha = back at h2
  subst h2
  exact List.drop_left _ _

theorem letters_head_ne_dollar (t : List Char) :
    ((t.takeWhile isalpha).map toupper).head? ≠ some '$' := by
  cases h : t.takeWhile isalpha with
  | nil => simp
  | cons c L =>
    have hc : isalpha c = true := by
      have hm : c ∈ t.takeWhile isalpha := by rw [h]; simp
      exact List.mem_takeWhile_imp hm
    have hu := isalpha_ne_dollar (isalpha_toupper hc)
    simp [hu]

theorem buffer_head (s : List Char) :
    ((leading_anchor s ++ ((after_anchor s).takeWhile isalpha).map toupper).head? = some '$') ↔
      leading_anchor s = ['$'] := by
  cases s with
  | nil => simp [leading_anchor, after_anchor]
  | cons c t =>
    by_cases hc : c = '$'
    · simp [leading_anchor, hc]
    · have h := letters_head_ne_dollar (c :: t)
      simp [leading_anchor, after_anchor, hc] at h ⊢
      exact h

theorem leading_anchor_cases (s : List Char) :
    leading_anchor s = ['$'] ∨ leading_anchor s = [] := by
  cases s with
  | nil => exact Or.inr rfl
  | cons c t =>
    by_cases hc : c = '$'
    · exact Or.inl (by simp [leading_anchor, hc])
    · exact Or.inr (by simp [leading_anchor, hc])

theorem buffer_drop (s : List Char) (h : leading_anchor s = ['$']) :
    (leading_anchor s ++ ((after_anchor s).takeWhile isalpha).map toupper).drop 1 =
      ((after_anchor s).takeWhile isalpha).map toupper := by
  rw [h]; rfl

/-- The function `split_reference` in closed form: the column text is the run of
letters behind the optional leading "$", and the row text is what follows. -/
theorem split_reference_closed (s : List Char) :
    split_reference s =
      match (after_anchor s).dropWhile isalpha with
      | [] => .error (.MalformedReference s)
      | c :: R =>
          if R.all row_character = true then
            match string_to_row (if c = '$' then R else c :: R) with
            | .error e => .error e
            | .ok row =>
                .ok { first := ((after_anchor s).takeWhile isalpha).map toupper, second := row,
                      absolute_column := decide (c = '$'),
                      absolute_row := decide (leading_anchor s = ['$']) }
          else .error (.MalformedReference s) := by
  unfold split_reference
  rw [scan_closed]
  have hdrop := drop_buffer s
  have hhead := buffer_head s
  cases hR : (after_anchor s).dropWhile isalpha with
  | nil =>
    rw [hR] at hdrop
    simp only [hdrop]
    simp
  | cons c R =>
    rw [hR] at hdrop
    by_cases hall : R.all row_character = true
    · simp only [hall, if_true, hdrop]
      by_cases ha : leading_anchor s = ['$']
      · have hb := buffer_drop s ha
        have hh := hhead.mpr ha
        by_cases hc : c = '$'
        · subst hc
          simp only [hh, hb, ha]
          simp
        · simp only [hh, hb, ha]
          simp [hc]
      · have hh : ¬ ((leading_anchor s ++ ((after_anchor s).takeWhile isalpha).map toupper).head?
            = some '$') := fun h => ha (hhead.mp h)
        have he : leading_anchor s = [] := (leading_anchor_cases s).resolve_left ha
        by_cases hc : c = '$'
        · subst hc
          simp only [hh, ha]
          simp [he]
        · simp only [hh, ha]
          simp [hc, he]
    · simp [hall]


/-! ## Texts of the grammar -/

theorem span_letters (L rest : List Char) (hL : ∀ c ∈ L, isalpha c = true)
    (hrest : ∀ c, rest.head? = some c → isalpha c = false) :
    (L ++ rest).takeWhile isalpha = L ∧ (L ++ rest).dropWhile isalpha = rest := by
  induction L with
  | nil =>
    cases rest with
    | nil => simp
    | cons c t =>
      have hc := hrest c rfl
      simp [List.takeWhile_cons, List.dropWhile_cons, hc]
  | cons c L ih =>
    have hc : isalpha c = true := hL c (by simp)
    have ih2 := ih (fun x hx => hL x (by simp [hx]))
    simp [List.takeWhile_cons, List.dropWhile_cons, hc, ih2.1, ih2.2]

theorem string_to_row_digits (digits : List Char) (hd : digits ≠ [])
    (hdd : ∀ c ∈ digits, isdigit c = true) :
    string_to_row digits = .ok (decimal_value digits % 2 ^ 32) := by
  have hall : digits.all isdigit = true := by
    rw [List.all_eq_true]; exact hdd
  simp [string_to_row, hd, hall]

theorem all_row_character_digits (digits : List Char) (hdd : ∀ c ∈ digits, isdigit c = true) :
    digits.all row_character = true := by
  rw [List.all_eq_true]
  intro c hc
  simp [row_character, hdd c hc]

theorem anchors_of_grammar (a1 : Bool) (letters rest : List Char) (hl : letters ≠ [])
    (hla : ∀ c ∈ letters, isalpha c = true) :
    leading_anchor (anchor a1 ++ letters ++ rest) = anchor a1 ∧
      after_anchor (anchor a1 ++ letters ++ rest) = letters ++ rest := by
  cases a1 with
  | true => simp [anchor, leading_anchor, after_anchor]
  | false =>
    cases letters with
    | nil => exact absurd rfl hl
    | cons c L =>
      have hc : c ≠ '$' := isalpha_ne_dollar (hla c (by simp))
      simp [anchor, leading_anchor, after_anchor, hc]

/-- The result of `split_reference` on a text of the grammar. -/
theorem split_reference_grammar (a1 a2 : Bool) (letters digits : List Char)
    (hl : letters ≠ []) (hla : ∀ c ∈ letters, isalpha c = true)
    (hd : digits ≠ []) (hdd : ∀ c ∈ digits, isdigit c = true) :
    split_reference (anchor a1 ++ letters ++ anchor a2 ++ digits) =
      .ok { first := letters.map toupper, second := decimal_value digits % 2 ^ 32,
            absolute_column := a2, absolute_row := a1 } := by
  have hs : anchor a1 ++ letters ++ anchor a2 ++ digits =
      anchor a1 ++ letters ++ (anchor a2 ++ digits) := by simp
  rw [hs, split_reference_closed]
  obtain ⟨hlead, hafter⟩ := anchors_of_grammar a1 letters (anchor a2 ++ digits) hl hla
  have hrest : ∀ c, (anchor a2 ++ digits).head? = some c → isalpha c = false := by
    intro c hc
    cases a2 with
    | true =>
      simp [anchor] at hc
      subst hc
      decide
    | false =>
      cases digits with
      | nil => exact absurd rfl hd
      | cons d ds =>
        simp [anchor] at hc
        subst hc
        exact isdigit_not_isalpha (hdd _ (by simp))
  obtain ⟨htake, hdropw⟩ := span_letters letters (anchor a2 ++ digits) hla hrest
  rw [hlead, hafter, htake, hdropw]
  have hrow := string_to_row_digits digits hd hdd
  have hall := all_row_character_digits digits hdd
  cases a2 with
  | true =>
    cases a1 <;> simp [anchor, hall, hrow]
  | false =>
    cases digits with
    | nil => exact absurd rfl hd
    | cons d ds =>
      have hne : d ≠ '$' := isdigit_ne_dollar (hdd d (by simp))
      have hall2 : ds.all row_character = true :=
        all_row_character_digits ds (fun x hx => hdd x (by simp [hx]))
      cases a1 <;> simp [anchor, hall2, hrow, hne]

theorem string_to_row_error (t : List Char) (e : exception)
    (h : string_to_row t = .error e) : e = .ConversionFailure := by
  unfold string_to_row at h
  by_cases hc : t ≠ [] ∧ t.all isdigit = true
  · rw [if_pos hc] at h; cases h
  · rw [if_neg hc] at h; cases h; rfl

theorem column_index_from_string_error (t : List Char) (e : exception)
    (h : column_index_from_string t = .error e) : e = .MalformedColumn := by
  unfold column_index_from_string at h
  by_cases hc : t = [] ∨ t.all isalpha = false
  · rw [if_pos hc] at h; cases h; rfl
  · rw [if_neg hc] at h; cases h

/-- No failure of the text constructor is the coordinate exception of the
bounds-checked constructor. -/
theorem of_string_error_kinds (s : List Char) (c r : Nat) :
    cell_reference.of_string s ≠ .error (.CoordinateOutOfRange c r) := by
  unfold cell_reference.of_string
  rw [split_reference_closed]
  cases (after_anchor s).dropWhile isalpha with
  | nil => simp
  | cons x R =>
    by_cases hall : R.all row_character = true
    · simp only [hall, if_true]
      cases hrow : string_to_row (if x = '$' then R else x :: R) with
      | error e =>
        have he := string_to_row_error _ e hrow
        subst he
        simp
      | ok row =>
        simp only [cell_reference.set_column]
        cases hcol : column_index_from_string
            (((after_anchor s).takeWhile isalpha).map toupper) with
        | error e =>
          have he := column_index_from_string_error _ e hcol
          subst he
          simp
        | ok index => simp
    · simp [hall]

/-- The bounds-checked constructor inside the grid. -/
theorem of_column_row_in_grid (k : constants) (c r : Nat)
    (h : 1 ≤ c ∧ c ≤ k.MaxColumn ∧ 1 ≤ r ∧ r ≤ k.MaxRow) :
    cell_reference.of_column_row k c r =
      .ok { column_ := c, row_ := r, absolute_row_ := false, absolute_column_ := false } := by
  unfold cell_reference.of_column_row
  rw [if_neg]
  omega

/-- The bounds-checked constructor outside the grid. -/
theorem of_column_row_outside_grid (k : constants) (c r : Nat)
    (h : ¬ (1 ≤ c ∧ c ≤ k.MaxColumn ∧ 1 ≤ r ∧ r ≤ k.MaxRow)) :
    cell_reference.of_column_row k c r = .error (.CoordinateOutOfRange c r) := by
  unfold cell_reference.of_column_row
  rw [if_pos]
  omega

/-! ## The claims -/

/-- C1: the constructor from a column index `c` and a row `r` succeeds exactly
when `1 ≤ c ≤ MaxColumn` and `1 ≤ r ≤ MaxRow`, and then holds `c` and `r` with
both anchor flags unset; in every other case (`r = 0`, `r > MaxRow`, `c = 0`
or `c > MaxColumn`) it throws the coordinate exception carrying `c` and `r`. -/
theorem of_column_row_bounds (k : constants) (c r : Nat) :
    ((1 ≤ c ∧ c ≤ k.MaxColumn ∧ 1 ≤ r ∧ r ≤ k.MaxRow) →
      cell_reference.of_column_row k c r =
        .ok { column_ := c, row_ := r, absolute_row_ := false, absolute_column_ := false }) ∧
    ((r = 0 ∨ k.MaxRow < r ∨ c = 0 ∨ k.MaxColumn < c) →
      cell_reference.of_column_row k c r = .error (.CoordinateOutOfRange c r)) ∧
    ((∃ ref, cell_reference.of_column_row k c r = .ok ref) ↔
      (1 ≤ c ∧ c ≤ k.MaxColumn ∧ 1 ≤ r ∧ r ≤ k.MaxRow)) := by
  unfold cell_reference.of_column_row
  by_cases h : r = 0 ∨ ¬ (r ≤ k.MaxRow) ∨ c = 0 ∨ ¬ (c ≤ k.MaxColumn)
  · rw [if_pos h]
    refine ⟨fun hin => ?_, fun _ => rfl, ?_⟩
    · omega
    · constructor
      · rintro ⟨ref, href⟩
        cases href
      · intro hin
        omega
  · rw [if_neg h]
    refine ⟨fun _ => rfl, fun hout => ?_, ?_⟩
    · omega
    · constructor
      · intro _
        omega
      · intro _
        exact ⟨_, rfl⟩

/-- Witness of C1: column 2, row 12 is accepted; column 0, row 5 and column 1,
row 0 are rejected with their coordinates. -/
theorem of_column_row_bounds_witness :
    cell_reference.of_column_row sample_limits 2 12 =
        .ok { column_ := 2, row_ := 12, absolute_row_ := false, absolute_column_ := false } ∧
      cell_reference.of_column_row sample_limits 0 5 = .error (.CoordinateOutOfRange 0 5) ∧
      cell_reference.of_column_row sample_limits 1 0 = .error (.CoordinateOutOfRange 1 0) :=
  ⟨(of_column_row_bounds sample_limits 2 12).1 (by decide),
   (of_column_row_bounds sample_limits 0 5).2.1 (by decide),
   (of_column_row_bounds sample_limits 1 0).2.1 (by decide)⟩

/-- C2, evaluated on the code: the text "A0" matches the grammar and names row 0,
yet the text constructor returns a reference with column 1 and row 0 instead of
throwing, whereas the bounds-checked constructor rejects the same column and
row whatever the limits are; and on no text at all does the text constructor
throw the coordinate exception of the bounds check. -/
theorem of_string_A0_unchecked (k : constants) :
    matches_grammar "A0".toList ∧
      cell_reference.of_string "A0".toList =
        .ok { column_ := 1, row_ := 0, absolute_row_ := false, absolute_column_ := false } ∧
      cell_reference.of_column_row k 1 0 = .error (.CoordinateOutOfRange 1 0) ∧
      (∀ (s : List Char) (c r : Nat),
        cell_reference.of_string s ≠ .error (.CoordinateOutOfRange c r)) := by
  refine ⟨⟨false, false, ['A'], ['0'], by decide, by decide, by decide, by decide, by decide⟩,
    by decide, ?_, of_string_error_kinds⟩
  simp [cell_reference.of_column_row]

/-- C3 fails as stated: "A4294967296" is one letter followed by digits, the
decimal value of its digits is 2^32, and `split_reference` does not return that
value as the row, which is a 32-bit `row_t`. -/
theorem split_reference_row_too_wide :
    matches_grammar "A4294967296".toList ∧
      decimal_value "4294967296".toList = 4294967296 ∧
      split_reference "A4294967296".toList ≠
        .ok { first := "A".toList, second := 4294967296,
              absolute_column := false, absolute_row := false } :=
  ⟨⟨false, false, "A".toList, "4294967296".toList, by decide, by decide, by decide, by decide,
      by decide⟩,
    by decide, by decide⟩

/-- C3 as amended: on every text `["$"] letters ["$"] digits` with one or more
ASCII letters and one or more ASCII digits whose decimal value fits the 32-bit
row type (is below 2^32), `split_reference` succeeds; the column text is the
letters upper-cased, the row is the decimal value of the digits, the row
anchor flag is set exactly when the text begins with "$", the column anchor
flag exactly when a "$" stands between the letters and the digits, and neither
marker remains in the column text or the row. -/
theorem split_reference_on_grammar (a1 a2 : Bool) (letters digits : List Char)
    (hl : letters ≠ []) (hla : ∀ c ∈ letters, isalpha c = true)
    (hd : digits ≠ []) (hdd : ∀ c ∈ digits, isdigit c = true)
    (hfit : decimal_value digits < 2 ^ 32) :
    split_reference (anchor a1 ++ letters ++ anchor a2 ++ digits) =
      .ok { first := letters.map toupper, second := decimal_value digits,
            absolute_column := a2, absolute_row := a1 } := by
  rw [split_reference_grammar a1 a2 letters digits hl hla hd hdd, Nat.mod_eq_of_lt hfit]

/-- Witness of the amended C3: "$b12" has a leading marker only, so the row flag
is set and the column flag is not; the column text is "B" and the row 12. -/
theorem split_reference_on_grammar_witness :
    split_reference "$b12".toList =
      .ok { first := "B".toList, second := 12, absolute_column := false, absolute_row := true } :=
  split_reference_on_grammar true false "b".toList "12".toList
    (by decide) (by decide) (by decide) (by decide) (by decide)

theorem scan_from_append (rs l1 l2 : List Char) (st : scan_state) :
    scan_from rs (l1 ++ l2) st =
      match scan_from rs l1 st with
      | .ok st1 => scan_from rs l2 st1
      | .error e => .error e := by
  induction l1 generalizing st with
  | nil => simp [scan_from]
  | cons c t ih =>
    simp only [List.cons_append, scan_from]
    cases scan_step rs st c with
    | ok st1 => exact ih st1
    | error e => rfl

theorem scan_rejects_after_switch (front rest : List Char) (c : Char) (st : scan_state)
    (hfront : scan_from (front ++ c :: rest) front ⟨true, []⟩ = .ok st)
    (hpart : st.column_part = false) (hc : row_character c = false) :
    split_reference (front ++ c :: rest) = .error (.MalformedReference (front ++ c :: rest)) := by
  have hscan : scan (front ++ c :: rest) = .error (.MalformedReference (front ++ c :: rest)) := by
    unfold scan
    rw [scan_from_append, hfront]
    obtain ⟨part, buf⟩ := st
    simp only at hpart
    subst hpart
    simp only [scan_from]
    rw [scan_step_row]
    simp [hc]
  unfold split_reference
  rw [hscan]

/-- C4: `split_reference` throws the reference exception (`MalformedReference`)
(1) whenever a letter occurs after the loop has switched to the row segment,
(2) whenever a character that is neither a digit nor "$" occurs after the first
row-segment character, and (3) whenever the row text obtained by slicing the
input at the length of the column buffer is empty. The state `st` is the one
the loop has reached after the characters `front`. -/
theorem split_reference_malformed :
    (∀ (front rest : List Char) (c : Char) (st : scan_state),
      scan_from (front ++ c :: rest) front ⟨true, []⟩ = .ok st → st.column_part = false →
      isalpha c = true →
      split_reference (front ++ c :: rest) = .error (.MalformedReference (front ++ c :: rest))) ∧
    (∀ (front rest : List Char) (c : Char) (st : scan_state),
      scan_from (front ++ c :: rest) front ⟨true, []⟩ = .ok st → st.column_part = false →
      isdigit c = false → c ≠ '$' →
      split_reference (front ++ c :: rest) = .error (.MalformedReference (front ++ c :: rest))) ∧
    (∀ (s : List Char) (st : scan_state),
      scan s = .ok st → s.drop st.column_string.length = [] →
      split_reference s = .error (.MalformedReference s)) := by
  refine ⟨?_, ?_, ?_⟩
  · intro front rest c st hfront hpart hc
    apply scan_rejects_after_switch front rest c st hfront hpart
    have h1 : isdigit c = false := by
      cases hd : isdigit c
      · rfl
      · rw [isdigit_not_isalpha hd] at hc; cases hc
    simp [row_character, h1, isalpha_ne_dollar hc]
  · intro front rest c st hfront hpart hd hne
    apply scan_rejects_after_switch front rest c st hfront hpart
    simp [row_character, hd, hne]
  · intro s st hscan hrow
    unfold split_reference
    rw [hscan]
    simp [hrow]

/-- Witness of C4: "1A" and "A1B" have a letter in the row segment, "A1.5" has a
"." behind the first row-segment character, and "", "A" and "$A" leave an empty
row text. -/
theorem split_reference_malformed_witness :
    split_reference "1A".toList = .error (.MalformedReference "1A".toList) ∧
    split_reference "A1B".toList = .error (.MalformedReference "A1B".toList) ∧
    split_reference "A1.5".toList = .error (.MalformedReference "A1.5".toList) ∧
    split_reference "".toList = .error (.MalformedReference "".toList) ∧
    split_reference "A".toList = .error (.MalformedReference "A".toList) ∧
    split_reference "$A".toList = .error (.MalformedReference "$A".toList) :=
  ⟨split_reference_malformed.1 "1".toList [] 'A' ⟨false, []⟩ (by decide) rfl (by decide),
   split_reference_malformed.1 "A1".toList [] 'B' ⟨false, ['A']⟩ (by decide) rfl (by decide),
   split_reference_malformed.2.1 "A1".toList "5".toList '.' ⟨false, ['A']⟩ (by decide) rfl
     (by decide) (by decide),
   split_reference_malformed.2.2 [] ⟨true, []⟩ (by decide) (by decide),
   split_reference_malformed.2.2 "A".toList ⟨true, ['A']⟩ (by decide) (by decide),
   split_reference_malformed.2.2 "$A".toList ⟨true, ['$', 'A']⟩ (by decide) (by decide)⟩

/-- C5, evaluated on the code: on the digits-only text "123" `split_reference`
throws nothing and returns an empty column text with row 123, so the text
constructor does not fail with `MalformedReference`; it fails in the column
conversion, with `MalformedColumn`. The same happens on "$1", whose column
segment is the marker alone. -/
theorem of_string_digits_only :
    split_reference "123".toList =
        .ok { first := [], second := 123, absolute_column := false, absolute_row := false } ∧
      cell_reference.of_string "123".toList = .error .MalformedColumn ∧
      cell_reference.of_string "123".toList ≠ .error (.MalformedReference "123".toList) ∧
      split_reference "$1".toList =
        .ok { first := [], second := 1, absolute_column := false, absolute_row := true } ∧
      cell_reference.of_string "$1".toList = .error .MalformedColumn := by
  decide


theorem dropWhile_head_not_alpha (t : List Char) (c : Char) (R : List Char)
    (h : t.dropWhile isalpha = c :: R) : isalpha c = false := by
  induction t with
  | nil => simp at h
  | cons x t ih =>
    by_cases hx : isalpha x = true
    · rw [List.dropWhile_cons, if_pos hx] at h
      exact ih h
    · rw [List.dropWhile_cons, if_neg hx] at h
      cases h
      simpa using hx

theorem leading_anchor_eq_anchor (s : List Char) :
    leading_anchor s = anchor (decide (leading_anchor s = ['$'])) := by
  rcases leading_anchor_cases s with h | h <;> simp [h, anchor]

theorem scan_shape_of_span (s : List Char) (c : Char) (R : List Char)
    (hR : (after_anchor s).dropWhile isalpha = c :: R) (hall : R.all row_character = true) :
    scan_shape s := by
  refine ⟨decide (leading_anchor s = ['$']), (after_anchor s).takeWhile isalpha, c, R, ?_, ?_,
    dropWhile_head_not_alpha _ c R hR, ?_⟩
  · rw [← leading_anchor_eq_anchor, ← hR, List.append_assoc, List.takeWhile_append_dropWhile,
      leading_anchor_append]
  · intro x hx
    exact List.mem_takeWhile_imp hx
  · intro x hx
    have := (List.all_eq_true.mp hall) x hx
    simpa [row_character] using this

/-- The loop and the empty-row check reject every text outside `scan_shape`. -/
theorem split_reference_outside_shape (s : List Char) (h : ¬ scan_shape s) :
    split_reference s = .error (.MalformedReference s) := by
  rw [split_reference_closed]
  cases hR : (after_anchor s).dropWhile isalpha with
  | nil => rfl
  | cons c R =>
    by_cases hall : R.all row_character = true
    · exact absurd (scan_shape_of_span s c R hR hall) h
    · simp [hall]

theorem matches_grammar_first (s : List Char) (h : matches_grammar s) :
    ∃ r, split_reference s = .ok r ∧ r.first ≠ [] := by
  obtain ⟨a1, a2, letters, digits, hl, hla, hd, hdd, hs⟩ := h
  subst hs
  refine ⟨_, split_reference_grammar a1 a2 letters digits hl hla hd hdd, ?_⟩
  simpa using hl

/-- C6 fails as stated: "123" does not match the grammar, yet `split_reference`
returns on it without throwing; and "A1$2" and "A 1" do not match the grammar,
yet neither is rejected with `MalformedReference`. -/
theorem grammar_not_enforced :
    ¬ matches_grammar "123".toList ∧
      split_reference "123".toList =
        .ok { first := [], second := 123, absolute_column := false, absolute_row := false } ∧
      ¬ matches_grammar "A1$2".toList ∧
      split_reference "A1$2".toList ≠ .error (.MalformedReference "A1$2".toList) ∧
      ¬ matches_grammar "A 1".toList ∧
      split_reference "A 1".toList ≠ .error (.MalformedReference "A 1".toList) := by
  refine ⟨?_, by decide, ?_, by decide, ?_, by decide⟩
  · intro h
    obtain ⟨r, hr, hfirst⟩ := matches_grammar_first _ h
    have h123 : split_reference "123".toList =
        .ok { first := [], second := 123, absolute_column := false, absolute_row := false } := by
      decide
    rw [h123] at hr
    cases hr
    exact hfirst rfl
  · intro h
    obtain ⟨r, hr, _⟩ := matches_grammar_first _ h
    have hA : split_reference "A1$2".toList = .error .ConversionFailure := by decide
    rw [hA] at hr
    cases hr
  · intro h
    obtain ⟨r, hr, _⟩ := matches_grammar_first _ h
    have hA : split_reference "A 1".toList = .error .ConversionFailure := by decide
    rw [hA] at hr
    cases hr

/-- C6 as amended: every text that is not an optional "$", zero or more ASCII
letters, one character that is not a letter, and then only digits and "$", is
rejected by `split_reference` with `MalformedReference`; equivalently, whenever
`split_reference` returns without throwing, its input has that shape. -/
theorem split_reference_shape (s : List Char) :
    (¬ scan_shape s → split_reference s = .error (.MalformedReference s)) ∧
    (∀ r, split_reference s = .ok r → scan_shape s) := by
  refine ⟨split_reference_outside_shape s, ?_⟩
  intro r hr
  by_contra hns
  rw [split_reference_outside_shape s hns] at hr
  cases hr

/-- Witness of the amended C6: "A1B" is outside the shape and is rejected; "$B$12"
is returned, so it has the shape. -/
theorem split_reference_shape_witness :
    split_reference "A1B".toList = .error (.MalformedReference "A1B".toList) ∧
      scan_shape "$B$12".toList :=
  ⟨(split_reference_shape "A1B".toList).1 (by
      rintro ⟨a, letters, c, R, hs, hl, hc, hR⟩
      cases a <;> simp [anchor] at hs
      rcases letters with _ | ⟨l1, _ | ⟨l2, _ | ⟨l3, L⟩⟩⟩
      · simp at hs
        obtain ⟨rfl, rfl⟩ := hs
        revert hc; decide
      · simp at hs
        obtain ⟨rfl, rfl, rfl⟩ := hs
        have := hR (Char.ofNat 66) (by simp)
        revert this; decide
      · simp at hs
        obtain ⟨rfl, rfl, rfl, rfl⟩ := hs
        have := hl (Char.ofNat 49) (by simp)
        revert this; decide
      · simp at hs),
   (split_reference_shape "$B$12".toList).2 _ (by decide :
      split_reference "$B$12".toList =
        .ok { first := "B".toList, second := 12, absolute_column := true, absolute_row := true })⟩


/-! ## Column letters and decimal digits read back -/

theorem foldl_snoc_value (f : Nat → Char → Nat) (xs : List Char) (c : Char) (z : Nat) :
    (xs ++ [c]).foldl f z = f (xs.foldl f z) c := by
  simp

theorem column_string_aux_letters (fuel n : Nat) :
    ∀ c ∈ column_string_aux fuel n, isalpha c = true ∧ toupper c = c := by
  induction fuel generalizing n with
  | zero => intro c hc; simp [column_string_aux] at hc
  | succ fuel ih =>
    cases n with
    | zero => intro c hc; simp [column_string_aux] at hc
    | succ n =>
      intro c hc
      simp only [column_string_aux, List.mem_append, List.mem_singleton] at hc
      rcases hc with hc | hc
      · exact ih _ c hc
      · subst hc
        have h := letterChar_facts (n % 26) (Nat.mod_lt _ (by decide))
        exact ⟨h.1, h.2.1⟩

theorem column_string_aux_ne_nil (fuel n : Nat) (hf : 1 ≤ fuel) (hn : 1 ≤ n) :
    column_string_aux fuel n ≠ [] := by
  obtain ⟨f, rfl⟩ : ∃ f, fuel = f + 1 := ⟨fuel - 1, by omega⟩
  obtain ⟨m, rfl⟩ : ∃ m, n = m + 1 := ⟨n - 1, by omega⟩
  simp [column_string_aux]

theorem column_string_aux_value (fuel n : Nat) (h : n ≤ fuel) :
    (column_string_aux fuel n).foldl (fun acc c => acc * 26 + ((toupper c).toNat - 64)) 0 = n := by
  induction fuel generalizing n with
  | zero =>
    have : n = 0 := by omega
    subst this
    simp [column_string_aux]
  | succ fuel ih =>
    cases n with
    | zero => simp [column_string_aux]
    | succ n =>
      have hdiv : n / 26 ≤ fuel := le_trans (Nat.div_le_self n 26) (by omega)
      have hl := letterChar_facts (n % 26) (Nat.mod_lt _ (by decide))
      simp only [column_string_aux]
      rw [foldl_snoc_value, ih _ hdiv, hl.2.1, hl.2.2]
      have := Nat.div_add_mod n 26
      omega

/-- The column conversion reads the letters of a column back to its index. -/
theorem column_index_from_column_string (c : Nat) (hc : 1 ≤ c) :
    column_index_from_string (column_string c) = .ok c := by
  have hne := column_string_aux_ne_nil c c hc hc
  have hall : (column_string c).all isalpha = true := by
    rw [List.all_eq_true]
    intro x hx
    exact (column_string_aux_letters c c x hx).1
  have hval := column_string_aux_value c c (le_refl c)
  unfold column_index_from_string
  unfold column_string at *
  simp [hne, hall, hval]

theorem string_from_aux_digits (fuel n : Nat) : ∀ c ∈ string_from_aux fuel n, isdigit c = true := by
  induction fuel generalizing n with
  | zero => intro c hc; simp [string_from_aux] at hc
  | succ fuel ih =>
    intro c hc
    unfold string_from_aux at hc
    by_cases hn : n < 10
    · rw [if_pos hn] at hc
      simp only [List.mem_singleton] at hc
      subst hc
      exact (digitChar_facts n hn).1
    · rw [if_neg hn] at hc
      simp only [List.mem_append, List.mem_singleton] at hc
      rcases hc with hc | hc
      · exact ih _ c hc
      · subst hc
        exact (digitChar_facts (n % 10) (Nat.mod_lt _ (by decide))).1

theorem string_from_aux_ne_nil (fuel n : Nat) : string_from_aux (fuel + 1) n ≠ [] := by
  unfold string_from_aux
  by_cases hn : n < 10 <;> simp [hn]

theorem string_from_aux_value (fuel n : Nat) (h : n < fuel) :
    decimal_value (string_from_aux fuel n) = n := by
  induction fuel generalizing n with
  | zero => omega
  | succ fuel ih =>
    unfold string_from_aux
    by_cases hn : n < 10
    · rw [if_pos hn]
      simp [decimal_value, (digitChar_facts n hn).2]
    · rw [if_neg hn]
      have hdiv : n / 10 < fuel := by
        have : n / 10 < n := Nat.div_lt_self (by omega) (by decide)
        omega
      have hd := digitChar_facts (n % 10) (Nat.mod_lt _ (by decide))
      have hih := ih _ hdiv
      unfold decimal_value at hih ⊢
      rw [foldl_snoc_value, hih, hd.2]
      have := Nat.div_add_mod n 10
      omega

/-- The text constructor on the letters of a column followed by the digits of
a row, and `to_string` of the reference it builds. -/
theorem of_string_canonical (c r : Nat) (hc : 1 ≤ c) (hr : r < 2 ^ 32) :
    cell_reference.of_string (column_string c ++ string_from r) =
        .ok { column_ := c, row_ := r, absolute_row_ := false, absolute_column_ := false } ∧
      cell_reference.to_string
          { column_ := c, row_ := r, absolute_row_ := false, absolute_column_ := false } =
        column_string c ++ string_from r := by
  constructor
  · have hl : column_string c ≠ [] := column_string_aux_ne_nil c c hc hc
    have hla : ∀ x ∈ column_string c, isalpha x = true :=
      fun x hx => (column_string_aux_letters c c x hx).1
    have hd : string_from r ≠ [] := string_from_aux_ne_nil r r
    have hdd : ∀ x ∈ string_from r, isdigit x = true := string_from_aux_digits (r + 1) r
    have hsplit := split_reference_grammar false false (column_string c) (string_from r)
      hl hla hd hdd
    have hup : (column_string c).map toupper = column_string c := by
      conv_rhs => rw [← List.map_id (column_string c)]
      apply List.map_congr_left
      intro x hx
      exact (column_string_aux_letters c c x hx).2
    have hval : decimal_value (string_from r) = r := string_from_aux_value (r + 1) r (by omega)
    simp only [anchor, Bool.false_eq_true, if_false, List.nil_append, List.append_nil] at hsplit
    unfold cell_reference.of_string
    rw [hsplit, hup, hval, Nat.mod_eq_of_lt hr]
    simp [cell_reference.set_column, cell_reference.set_row, column_index_from_column_string c hc]
  · simp [cell_reference.to_string]

/-- C7: for every column `c` in `1..MaxColumn` and row `r` in `1..MaxRow`, the
canonical unanchored text `x` (the upper-case letters of `c` followed by the
decimal digits of `r`) is parsed to a reference whose `to_string` is `x` again. -/
theorem of_string_to_string_canonical (k : constants) (c r : Nat)
    (hc : 1 ≤ c ∧ c ≤ k.MaxColumn) (hr : 1 ≤ r ∧ r ≤ k.MaxRow) :
    ∃ ref, cell_reference.of_string (column_string c ++ string_from r) = .ok ref ∧
      ref.column_ = c ∧ ref.row_ = r ∧
      ref.to_string = column_string c ++ string_from r :=
  have hfit : r < 2 ^ 32 := Nat.lt_of_le_of_lt hr.2 k.MaxRow_fits
  ⟨_, (of_string_canonical c r hc.1 hfit).1, rfl, rfl, (of_string_canonical c r hc.1 hfit).2⟩

/-- Witness of C7: column 2 and row 12 give the text "B12", and parsing "B12" and
formatting the result gives "B12" back. -/
theorem of_string_to_string_canonical_witness :
    column_string 2 ++ string_from 12 = "B12".toList ∧
      ∃ ref, cell_reference.of_string "B12".toList = .ok ref ∧
        ref.column_ = 2 ∧ ref.row_ = 12 ∧ ref.to_string = "B12".toList :=
  ⟨by decide, of_string_to_string_canonical sample_limits 2 12 (by decide) (by decide)⟩


/-- C8, evaluated on the code: parsing "$B12" sets the row flag only, `to_string`
of that reference is "B$12", and parsing "B$12" sets the column flag only, so
the reference parsed from the formatted text is not equal to the reference
parsed from "$B12"; symmetrically for "B$12". -/
theorem one_anchor_round_trip_differs :
    cell_reference.of_string "$B12".toList =
        .ok { column_ := 2, row_ := 12, absolute_row_ := true, absolute_column_ := false } ∧
      cell_reference.to_string
          { column_ := 2, row_ := 12, absolute_row_ := true, absolute_column_ := false } =
        "B$12".toList ∧
      cell_reference.of_string "B$12".toList =
        .ok { column_ := 2, row_ := 12, absolute_row_ := false, absolute_column_ := true } ∧
      cell_reference.to_string
          { column_ := 2, row_ := 12, absolute_row_ := false, absolute_column_ := true } =
        "$B12".toList ∧
      cell_reference.operator_eq
          { column_ := 2, row_ := 12, absolute_row_ := false, absolute_column_ := true }
          { column_ := 2, row_ := 12, absolute_row_ := true, absolute_column_ := false } = false := by
  decide

/-- The order `operator<` is the lexicographic order on the pair (row, column). -/
theorem operator_lt_iff (a b : cell_reference) :
    a.operator_lt b = true ↔ a.row_ < b.row_ ∨ (a.row_ = b.row_ ∧ a.column_ < b.column_) := by
  unfold cell_reference.operator_lt
  by_cases h : a.row_ = b.row_
  · simp [h]
  · simp [h]

theorem operator_gt_eq_lt (a b : cell_reference) : a.operator_gt b = b.operator_lt a := by
  unfold cell_reference.operator_gt cell_reference.operator_lt
  by_cases h : a.row_ = b.row_
  · have h2 : b.row_ = a.row_ := h.symm
    simp [h]
  · have h2 : ¬ b.row_ = a.row_ := fun e => h e.symm
    simp [h, h2]

/-- C9: `operator<` is a strict total order on the pair (row, column index), row
first, and ignores the anchor flags: it is irreflexive and transitive, exactly
one of `a < b`, `b < a`, "same row and column" holds, `a > b` is `b < a`, and
replacing the flags of either side changes neither `<` nor `>`. Column 2 row 5
is greater than column 1 row 5, and column 1 row 6 greater than column 99
row 5. -/
theorem operator_lt_strict_total_order :
    (∀ a b : cell_reference, a.operator_lt b = true ↔
      a.row_ < b.row_ ∨ (a.row_ = b.row_ ∧ a.column_ < b.column_)) ∧
    (∀ a : cell_reference, a.operator_lt a = false) ∧
    (∀ a b c : cell_reference,
      a.operator_lt b = true → b.operator_lt c = true → a.operator_lt c = true) ∧
    (∀ a b : cell_reference,
      (a.operator_lt b = true ∧ b.operator_lt a = false ∧
          ¬ (a.row_ = b.row_ ∧ a.column_ = b.column_)) ∨
        (a.operator_lt b = false ∧ b.operator_lt a = true ∧
          ¬ (a.row_ = b.row_ ∧ a.column_ = b.column_)) ∨
        (a.operator_lt b = false ∧ b.operator_lt a = false ∧
          (a.row_ = b.row_ ∧ a.column_ = b.column_))) ∧
    (∀ a b : cell_reference, a.operator_gt b = b.operator_lt a) ∧
    (∀ (a b : cell_reference) (ra ca rb cb : Bool),
      cell_reference.operator_lt { a with absolute_row_ := ra, absolute_column_ := ca }
          { b with absolute_row_ := rb, absolute_column_ := cb } = a.operator_lt b ∧
        cell_reference.operator_gt { a with absolute_row_ := ra, absolute_column_ := ca }
          { b with absolute_row_ := rb, absolute_column_ := cb } = a.operator_gt b) ∧
    (∀ f1 f2 f3 f4 : Bool,
      cell_reference.operator_gt ⟨2, 5, f1, f2⟩ ⟨1, 5, f3, f4⟩ = true ∧
        cell_reference.operator_gt ⟨1, 6, f1, f2⟩ ⟨99, 5, f3, f4⟩ = true) := by
  refine ⟨operator_lt_iff, ?_, ?_, ?_, operator_gt_eq_lt, ?_, ?_⟩
  · intro a
    cases h : a.operator_lt a
    · rfl
    · rw [operator_lt_iff] at h
      omega
  · intro a b c hab hbc
    rw [operator_lt_iff] at *
    omega
  · intro a b
    have hnot : ∀ x y : cell_reference, x.operator_lt y = false ↔
        ¬ (x.row_ < y.row_ ∨ (x.row_ = y.row_ ∧ x.column_ < y.column_)) := by
      intro x y
      rw [← operator_lt_iff]
      simp
    rw [operator_lt_iff, operator_lt_iff, hnot, hnot]
    omega
  · intro a b ra ca rb cb
    exact ⟨rfl, rfl⟩
  · intro f1 f2 f3 f4
    exact ⟨by simp [cell_reference.operator_gt], by simp [cell_reference.operator_gt]⟩

/-- Witness of C9: from (col 1, row 5) < (col 2, row 5) and (col 2, row 5) <
(col 1, row 6), transitivity gives (col 1, row 5) < (col 1, row 6). -/
theorem operator_lt_strict_total_order_witness :
    cell_reference.operator_lt ⟨1, 5, false, false⟩ ⟨1, 6, true, true⟩ = true :=
  operator_lt_strict_total_order.2.2.1 ⟨1, 5, false, false⟩ ⟨2, 5, true, false⟩ ⟨1, 6, true, true⟩
    (by decide) (by decide)

/-- The comparison `operator==` holds exactly when all four members agree. -/
theorem operator_eq_iff (a b : cell_reference) :
    a.operator_eq b = true ↔
      (a.column_ = b.column_ ∧ a.row_ = b.row_ ∧ a.absolute_column_ = b.absolute_column_ ∧
        a.absolute_row_ = b.absolute_row_) := by
  unfold cell_reference.operator_eq
  simp only [Bool.and_eq_true, beq_iff_eq]
  constructor
  · rintro ⟨⟨⟨h1, h2⟩, h3⟩, h4⟩
    exact ⟨h1.symm, h2.symm, h3, h4⟩
  · rintro ⟨h1, h2, h3, h4⟩
    exact ⟨⟨⟨h1.symm, h2.symm⟩, h3⟩, h4⟩

/-- C10: `a == b` holds iff the two references have the same column, the same
row, the same column-anchor flag and the same row-anchor flag; so `==` is
reflexive, symmetric and transitive; and the references parsed from "A1" and
from "$A$1" both have column 1 and row 1 but are not equal. -/
theorem operator_eq_all_members :
    (∀ a b : cell_reference, a.operator_eq b = true ↔
      (a.column_ = b.column_ ∧ a.row_ = b.row_ ∧ a.absolute_column_ = b.absolute_column_ ∧
        a.absolute_row_ = b.absolute_row_)) ∧
    (∀ a : cell_reference, a.operator_eq a = true) ∧
    (∀ a b : cell_reference, a.operator_eq b = true → b.operator_eq a = true) ∧
    (∀ a b c : cell_reference,
      a.operator_eq b = true → b.operator_eq c = true → a.operator_eq c = true) ∧
    (∃ x y : cell_reference,
      cell_reference.of_string "A1".toList = .ok x ∧
        cell_reference.of_string "$A$1".toList = .ok y ∧
        x.column_ = 1 ∧ x.row_ = 1 ∧ y.column_ = 1 ∧ y.row_ = 1 ∧ x.operator_eq y = false) := by
  refine ⟨operator_eq_iff, ?_, ?_, ?_, ?_⟩
  · intro a
    rw [operator_eq_iff]
    exact ⟨rfl, rfl, rfl, rfl⟩
  · intro a b h
    rw [operator_eq_iff] at *
    obtain ⟨h1, h2, h3, h4⟩ := h
    exact ⟨h1.symm, h2.symm, h3.symm, h4.symm⟩
  · intro a b c hab hbc
    rw [operator_eq_iff] at *
    obtain ⟨h1, h2, h3, h4⟩ := hab
    obtain ⟨g1, g2, g3, g4⟩ := hbc
    exact ⟨h1.trans g1, h2.trans g2, h3.trans g3, h4.trans g4⟩
  · exact ⟨⟨1, 1, false, false⟩, ⟨1, 1, true, true⟩, by decide, by decide, rfl, rfl, rfl, rfl,
      by decide⟩

/-- Witness of C10: "A1" parsed twice gives equal references, by symmetry in
either direction. -/
theorem operator_eq_all_members_witness :
    cell_reference.operator_eq ⟨1, 1, true, false⟩ ⟨1, 1, true, false⟩ = true ∧
      cell_reference.operator_eq ⟨3, 7, false, true⟩ ⟨3, 7, false, true⟩ = true :=
  ⟨operator_eq_all_members.2.2.1 ⟨1, 1, true, false⟩ ⟨1, 1, true, false⟩ (by decide),
   operator_eq_all_members.2.2.2.1 ⟨3, 7, false, true⟩ ⟨3, 7, false, true⟩ ⟨3, 7, false, true⟩
     (by decide) (by decide)⟩


/-! ## Hashing, ordering operators, ranges and anchors -/

theorem hash_of_members (k : constants) (a b : cell_reference)
    (hc : a.column_ = b.column_) (hr : a.row_ = b.row_) :
    cell_reference_hash k a = cell_reference_hash k b := by
  unfold cell_reference_hash
  rw [hc, hr]

theorem hash_exact (k : constants) (r : cell_reference)
    (h : r.row_ * k.MaxColumn + r.column_ < 2 ^ 32) :
    cell_reference_hash k r = r.row_ * k.MaxColumn + r.column_ := by
  unfold cell_reference_hash
  exact Nat.mod_eq_of_lt h

/-- C11 fails as stated: under the sample limits the reference with column 1 and
row 262144 is inside the grid and `row * MaxColumn + column` is 2^32 + 1, but
its hash is 1. -/
theorem hash_wraps :
    cell_reference.valid sample_limits ⟨1, 262144, false, false⟩ ∧
      262144 * sample_limits.MaxColumn + 1 = 4294967297 ∧
      cell_reference_hash sample_limits ⟨1, 262144, false, false⟩ = 1 := by
  decide

/-- C11 as amended: the hash of a reference is `row * MaxColumn + column index`
computed in unsigned 32-bit arithmetic, that is modulo 2^32, and so exactly
that number when it is below 2^32; it does not read the anchor flags; hence
`a == b` implies `hash(a) == hash(b)`, and two references that differ only in
their flags have the same hash. -/
theorem hash_ignores_flags (k : constants) :
    (∀ r : cell_reference,
      cell_reference_hash k r = (r.row_ * k.MaxColumn + r.column_) % 2 ^ 32) ∧
    (∀ r : cell_reference, r.row_ * k.MaxColumn + r.column_ < 2 ^ 32 →
      cell_reference_hash k r = r.row_ * k.MaxColumn + r.column_) ∧
    (∀ (r : cell_reference) (fr fc : Bool),
      cell_reference_hash k { r with absolute_row_ := fr, absolute_column_ := fc } =
        cell_reference_hash k r) ∧
    (∀ a b : cell_reference, a.operator_eq b = true →
      cell_reference_hash k a = cell_reference_hash k b) ∧
    (∀ a b : cell_reference, a.column_ = b.column_ → a.row_ = b.row_ →
      cell_reference_hash k a = cell_reference_hash k b) := by
  refine ⟨fun _ => rfl, hash_exact k, fun _ _ _ => rfl, ?_, hash_of_members k⟩
  intro a b h
  rw [operator_eq_iff] at h
  exact hash_of_members k a b h.1 h.2.1

/-- Witness of the amended C11: column 3, row 2 hashes to 2 * 16384 + 3 under the
sample limits; equal references hash alike, and so do the references "C2" and
"$C$2" that differ only in their flags. -/
theorem hash_ignores_flags_witness :
    cell_reference_hash sample_limits ⟨3, 2, false, false⟩ = 2 * 16384 + 3 ∧
      cell_reference_hash sample_limits ⟨3, 2, true, false⟩ =
        cell_reference_hash sample_limits ⟨3, 2, true, false⟩ ∧
      cell_reference_hash sample_limits ⟨3, 2, false, false⟩ =
        cell_reference_hash sample_limits ⟨3, 2, true, true⟩ :=
  ⟨(hash_ignores_flags sample_limits).2.1 ⟨3, 2, false, false⟩ (by decide),
   (hash_ignores_flags sample_limits).2.2.2.1 ⟨3, 2, true, false⟩ ⟨3, 2, true, false⟩ (by decide),
   (hash_ignores_flags sample_limits).2.2.2.2 ⟨3, 2, false, false⟩ ⟨3, 2, true, true⟩ rfl rfl⟩

theorem to_range_valid (k : constants) (c : cell_reference) (hv : c.valid k) :
    c.to_range k =
      .ok { top_left_ := ⟨c.column_, c.row_, false, false⟩,
            bottom_right_ := ⟨c.column_, c.row_, false, false⟩ } := by
  obtain ⟨h1, h2, h3, h4⟩ := hv
  have hcon := (of_column_row_in_grid k c.column_ c.row_ ⟨h1, h2, h3, h4⟩)
  unfold cell_reference.to_range range_reference.of_coordinates
  rw [hcon]

/-- C12 fails as stated: the reference with column 1, row 1 and both flags set is
inside the grid, and neither corner of its range is equal to it. -/
theorem to_range_drops_flags :
    ∃ rg : range_reference,
      cell_reference.to_range sample_limits ⟨1, 1, true, true⟩ = .ok rg ∧
        rg.top_left_.operator_eq ⟨1, 1, true, true⟩ = false ∧
        rg.bottom_right_.operator_eq ⟨1, 1, true, true⟩ = false :=
  ⟨⟨⟨1, 1, false, false⟩, ⟨1, 1, false, false⟩⟩, by decide, by decide, by decide⟩

/-- C12 as amended: for every reference `c` inside the grid, `c.to_range()` is a
range whose two corners have the column and the row of `c` and both flags
unset; the corners are equal to each other, and each is equal to `c` under
`operator==` exactly when `c` has no flag set. The range does not depend on the
flags of `c`. -/
theorem to_range_corners (k : constants) (c : cell_reference) (hv : c.valid k) :
    (∃ rg : range_reference, c.to_range k = .ok rg ∧
      rg.top_left_ = ⟨c.column_, c.row_, false, false⟩ ∧
      rg.bottom_right_ = ⟨c.column_, c.row_, false, false⟩ ∧
      rg.top_left_.operator_eq rg.bottom_right_ = true ∧
      (rg.top_left_.operator_eq c = true ↔
        (c.absolute_column_ = false ∧ c.absolute_row_ = false)) ∧
      (rg.bottom_right_.operator_eq c = true ↔
        (c.absolute_column_ = false ∧ c.absolute_row_ = false))) ∧
    (∀ fr fc : Bool,
      cell_reference.to_range k { c with absolute_row_ := fr, absolute_column_ := fc } =
        c.to_range k) := by
  refine ⟨⟨_, to_range_valid k c hv, rfl, rfl, ?_, ?_, ?_⟩, fun _ _ => rfl⟩
  · rw [operator_eq_iff]
    exact ⟨rfl, rfl, rfl, rfl⟩
  · rw [operator_eq_iff]
    constructor
    · rintro ⟨_, _, h3, h4⟩
      exact ⟨h3.symm, h4.symm⟩
    · rintro ⟨h3, h4⟩
      exact ⟨rfl, rfl, h3.symm, h4.symm⟩
  · rw [operator_eq_iff]
    constructor
    · rintro ⟨_, _, h3, h4⟩
      exact ⟨h3.symm, h4.symm⟩
    · rintro ⟨h3, h4⟩
      exact ⟨rfl, rfl, h3.symm, h4.symm⟩

/-- Witness of the amended C12: the reference parsed from "A1" has no flag set,
and both corners of its range are equal to it. -/
theorem to_range_corners_witness :
    cell_reference.of_string "A1".toList = .ok ⟨1, 1, false, false⟩ ∧
      ∃ rg : range_reference,
        cell_reference.to_range sample_limits ⟨1, 1, false, false⟩ = .ok rg ∧
          rg.top_left_.operator_eq ⟨1, 1, false, false⟩ = true ∧
          rg.bottom_right_.operator_eq ⟨1, 1, false, false⟩ = true := by
  refine ⟨by decide, ?_⟩
  obtain ⟨rg, h1, _, _, _, h5, h6⟩ :=
    (to_range_corners sample_limits ⟨1, 1, false, false⟩ (by decide)).1
  exact ⟨rg, h1, h5.mpr ⟨rfl, rfl⟩, h6.mpr ⟨rfl, rfl⟩⟩


/-- C15: `c.make_absolute(ac, ar)` sets the column-anchor flag to `ac` and the
row-anchor flag to `ar`, each independently of the other, and leaves the
column and the row as they were; so the hash of `c` and the result of every
ordering comparison of `c` with any other reference, on either side, are the
same before and after. -/
theorem make_absolute_frame (k : constants) (c other : cell_reference) (ac ar : Bool) :
    (c.make_absolute ac ar).absolute_column_ = ac ∧
    (c.make_absolute ac ar).absolute_row_ = ar ∧
    (c.make_absolute ac ar).column_ = c.column_ ∧
    (c.make_absolute ac ar).row_ = c.row_ ∧
    cell_reference_hash k (c.make_absolute ac ar) = cell_reference_hash k c ∧
    (c.make_absolute ac ar).operator_lt other = c.operator_lt other ∧
    other.operator_lt (c.make_absolute ac ar) = other.operator_lt c ∧
    (c.make_absolute ac ar).operator_gt other = c.operator_gt other ∧
    other.operator_gt (c.make_absolute ac ar) = other.operator_gt c ∧
    (c.make_absolute ac ar).operator_le other = c.operator_le other ∧
    other.operator_le (c.make_absolute ac ar) = other.operator_le c ∧
    (c.make_absolute ac ar).operator_ge other = c.operator_ge other ∧
    other.operator_ge (c.make_absolute ac ar) = other.operator_ge c :=
  ⟨rfl, rfl, rfl, rfl, rfl, rfl, rfl, rfl, rfl, rfl, rfl, rfl, rfl⟩

theorem hash_lt_of_lt (k : constants) (a b : cell_reference) (ha : a.valid k) (hb : b.valid k)
    (h : a.row_ < b.row_ ∨ (a.row_ = b.row_ ∧ a.column_ < b.column_)) :
    a.row_ * k.MaxColumn + a.column_ < b.row_ * k.MaxColumn + b.column_ := by
  obtain ⟨_, ha2, _, _⟩ := ha
  obtain ⟨hb1, _, _, _⟩ := hb
  rcases h with h | ⟨h1, h2⟩
  · have hmul : (a.row_ + 1) * k.MaxColumn ≤ b.row_ * k.MaxColumn :=
      Nat.mul_le_mul_right _ h
    rw [Nat.add_mul, Nat.one_mul] at hmul
    omega
  · rw [h1]
    omega

/-- C18 fails as stated: under the sample limits (col 1, row 1) and (col 1, row
262145) are inside the grid, `row * MaxColumn + column` is below 2^64 for
both, the first is less than the second and they are different cells, yet
both hash to 16385. -/
theorem hash_collision :
    cell_reference.valid sample_limits ⟨1, 1, false, false⟩ ∧
      cell_reference.valid sample_limits ⟨1, 262145, false, false⟩ ∧
      1 * sample_limits.MaxColumn + 1 < 2 ^ 64 ∧
      262145 * sample_limits.MaxColumn + 1 < 2 ^ 64 ∧
      cell_reference.operator_lt ⟨1, 1, false, false⟩ ⟨1, 262145, false, false⟩ = true ∧
      cell_reference_hash sample_limits ⟨1, 1, false, false⟩ = 16385 ∧
      cell_reference_hash sample_limits ⟨1, 262145, false, false⟩ = 16385 := by
  decide

/-- C18 as amended: on references inside the grid whose hash is computed without
overflow of the unsigned 32-bit arithmetic (`row * MaxColumn + column` is below
2^32), the hash is strictly monotone in the ordering: `a < b` iff `hash(a) <
hash(b)`; hence two such references have the same hash iff they have the same
row and the same column. -/
theorem hash_strictly_monotone (k : constants) (a b : cell_reference)
    (ha : a.valid k) (hb : b.valid k)
    (hoa : a.row_ * k.MaxColumn + a.column_ < 2 ^ 32)
    (hob : b.row_ * k.MaxColumn + b.column_ < 2 ^ 32) :
    (a.operator_lt b = true ↔ cell_reference_hash k a < cell_reference_hash k b) ∧
    (cell_reference_hash k a = cell_reference_hash k b ↔
      (a.row_ = b.row_ ∧ a.column_ = b.column_)) := by
  rw [hash_exact k a hoa, hash_exact k b hob, operator_lt_iff]
  have hab := hash_lt_of_lt k a b ha hb
  have hba := hash_lt_of_lt k b a hb ha
  constructor
  · constructor
    · exact hab
    · intro hlt
      by_contra hn
      have hcases : (b.row_ < a.row_ ∨ (b.row_ = a.row_ ∧ b.column_ < a.column_)) ∨
          (a.row_ = b.row_ ∧ a.column_ = b.column_) := by omega
      rcases hcases with h | ⟨h1, h2⟩
      · have := hba h
        omega
      · rw [h1, h2] at hlt
        omega
  · constructor
    · intro heq
      by_contra hn
      have hcases : (a.row_ < b.row_ ∨ (a.row_ = b.row_ ∧ a.column_ < b.column_)) ∨
          (b.row_ < a.row_ ∨ (b.row_ = a.row_ ∧ b.column_ < a.column_)) := by omega
      rcases hcases with h | h
      · have := hab h
        omega
      · have := hba h
        omega
    · rintro ⟨h1, h2⟩
      rw [h1, h2]

/-- Witness of the amended C18: under the sample limits (col 99, row 5) is less than (col 1,
row 6), and so are their hashes. -/
theorem hash_strictly_monotone_witness :
    cell_reference.operator_lt ⟨99, 5, false, false⟩ ⟨1, 6, true, false⟩ = true ∧
      cell_reference_hash sample_limits ⟨99, 5, false, false⟩ <
        cell_reference_hash sample_limits ⟨1, 6, true, false⟩ :=
  ⟨by decide,
   (hash_strictly_monotone sample_limits ⟨99, 5, false, false⟩ ⟨1, 6, true, false⟩
      (by decide) (by decide) (by decide) (by decide)).1.mp (by decide)⟩

theorem operator_le_iff (a b : cell_reference) :
    a.operator_le b = true ↔ a.row_ < b.row_ ∨ (a.row_ = b.row_ ∧ a.column_ ≤ b.column_) := by
  unfold cell_reference.operator_le
  by_cases h : a.row_ = b.row_
  · simp [h]
  · simp [h]

theorem operator_ge_iff (a b : cell_reference) :
    a.operator_ge b = true ↔ b.row_ < a.row_ ∨ (a.row_ = b.row_ ∧ b.column_ ≤ a.column_) := by
  unfold cell_reference.operator_ge
  by_cases h : a.row_ = b.row_
  · simp [h]
  · simp [h]

theorem operator_lt_false_iff (a b : cell_reference) :
    a.operator_lt b = false ↔ ¬ (a.row_ < b.row_ ∨ (a.row_ = b.row_ ∧ a.column_ < b.column_)) := by
  rw [← operator_lt_iff]
  simp

/-- C19: the four ordering operators agree: `a <= b` iff not `a > b`; `a >= b`
iff not `a < b`; `a <= b` iff `a < b` or `a` and `b` have the same row and
column; and `a >= b` iff `b <= a`. -/
theorem ordering_operators_agree (a b : cell_reference) :
    (a.operator_le b = true ↔ a.operator_gt b = false) ∧
    (a.operator_ge b = true ↔ a.operator_lt b = false) ∧
    (a.operator_le b = true ↔
      (a.operator_lt b = true ∨ (a.row_ = b.row_ ∧ a.column_ = b.column_))) ∧
    (a.operator_ge b = true ↔ b.operator_le a = true) := by
  rw [operator_gt_eq_lt, operator_lt_false_iff, operator_lt_false_iff, operator_le_iff,
    operator_ge_iff, operator_lt_iff, operator_le_iff]
  refine ⟨?_, ?_, ?_, ?_⟩ <;> omega


/-! ## Offsets -/

theorem to_int_of_lt (n : Nat) (h : n < 2 ^ 31) : to_int n = (n : Int) := by
  unfold to_int
  split <;> omega

theorem to_unsigned_in_range (i : Int) (h0 : 0 ≤ i) (h1 : i < 2 ^ 32) :
    to_unsigned i = i.toNat := by
  unfold to_unsigned
  omega

theorem to_unsigned_negative (i : Int) (h0 : -(2 ^ 31) ≤ i) (h1 : i < 0) :
    2 ^ 31 ≤ to_unsigned i := by
  unfold to_unsigned
  omega

theorem to_unsigned_to_int (n : Nat) (h : n < 2 ^ 32) : to_unsigned (to_int n) = n := by
  unfold to_unsigned to_int
  split <;> omega

theorem to_unsigned_to_int_add (i d : Int) :
    to_unsigned (to_int (to_unsigned i) + d) = to_unsigned (i + d) := by
  unfold to_unsigned to_int
  split <;> omega

theorem of_column_row_ok (k : constants) (x y : Nat) (r : cell_reference)
    (h : cell_reference.of_column_row k x y = .ok r) :
    r = ⟨x, y, false, false⟩ ∧ (1 ≤ x ∧ x ≤ k.MaxColumn ∧ 1 ≤ y ∧ y ≤ k.MaxRow) := by
  by_cases hin : 1 ≤ x ∧ x ≤ k.MaxColumn ∧ 1 ≤ y ∧ y ≤ k.MaxRow
  · rw [of_column_row_in_grid k x y hin] at h
    cases h
    exact ⟨rfl, hin⟩
  · rw [of_column_row_outside_grid k x y hin] at h
    cases h

/-- Two offsets in a row are the offset by the sums of the deltas. -/
theorem make_offset_twice (k : constants) (c c1 : cell_reference) (a b d e : Int)
    (h1 : c.make_offset k a b = .ok c1) :
    c1.make_offset k d e = c.make_offset k (a + d) (b + e) := by
  unfold cell_reference.make_offset at h1
  obtain ⟨hc1, _⟩ := of_column_row_ok k _ _ c1 h1
  subst hc1
  unfold cell_reference.make_offset
  simp only [to_unsigned_to_int_add, Int.add_assoc]

/-- C13 fails as stated: under the widest limits the reference with column 1 and
row 1 is inside the grid, the deltas -2 and 0 and the sums 1 + (-2) and 1 + 0
fit the `int`, and the column sum -1 is outside `[1, MaxColumn]`; yet
`make_offset(-2, 0)` does not fail: the sum reaches the constructor as 2^32 - 1,
which is not above the limit. -/
theorem make_offset_accepts_wrapped :
    cell_reference.valid widest_limits ⟨1, 1, false, false⟩ ∧
      fits_int (-2) ∧ fits_int 0 ∧ fits_int ((1 : Int) + (-2)) ∧ fits_int ((1 : Int) + 0) ∧
      ¬ (1 ≤ (1 : Int) + (-2)) ∧
      cell_reference.make_offset widest_limits ⟨1, 1, false, false⟩ (-2) 0 =
        .ok ⟨4294967295, 1, false, false⟩ := by
  decide

/-- C13 as amended: let the limits `MaxColumn` and `MaxRow` be below 2^31, let `c`
be a reference inside the grid with column `k` and row `r`, and let `dc`, `dr`
be `int` deltas whose sums `k + dc` and `r + dr` do not overflow the `int`. Then `c.make_offset(dc,
dr)` fails with the coordinate exception iff `k + dc` is outside `[1,
MaxColumn]` or `r + dr` outside `[1, MaxRow]`, a zero or negative sum reaching
the constructor as its value modulo 2^32; otherwise it returns the reference
with column `k + dc`, row `r + dr` and both flags unset. -/
theorem make_offset_bounds (k : constants) (c : cell_reference) (dc dr : Int)
    (hmc : k.MaxColumn < 2 ^ 31) (hmr : k.MaxRow < 2 ^ 31) (hv : c.valid k)
    (_hdc : fits_int dc) (_hdr : fits_int dr)
    (hsc : fits_int ((c.column_ : Int) + dc)) (hsr : fits_int ((c.row_ : Int) + dr)) :
    ((1 ≤ (c.column_ : Int) + dc ∧ (c.column_ : Int) + dc ≤ k.MaxColumn ∧
        1 ≤ (c.row_ : Int) + dr ∧ (c.row_ : Int) + dr ≤ k.MaxRow) →
      c.make_offset k dc dr =
        .ok ⟨((c.column_ : Int) + dc).toNat, ((c.row_ : Int) + dr).toNat, false, false⟩) ∧
    (¬ (1 ≤ (c.column_ : Int) + dc ∧ (c.column_ : Int) + dc ≤ k.MaxColumn ∧
        1 ≤ (c.row_ : Int) + dr ∧ (c.row_ : Int) + dr ≤ k.MaxRow) →
      c.make_offset k dc dr =
        .error (.CoordinateOutOfRange (to_unsigned ((c.column_ : Int) + dc))
          (to_unsigned ((c.row_ : Int) + dr)))) ∧
    ((∃ col row, c.make_offset k dc dr = .error (.CoordinateOutOfRange col row)) ↔
      ¬ (1 ≤ (c.column_ : Int) + dc ∧ (c.column_ : Int) + dc ≤ k.MaxColumn ∧
        1 ≤ (c.row_ : Int) + dr ∧ (c.row_ : Int) + dr ≤ k.MaxRow)) := by
  obtain ⟨hv1, hv2, hv3, hv4⟩ := hv
  obtain ⟨hsc1, hsc2⟩ := hsc
  obtain ⟨hsr1, hsr2⟩ := hsr
  have hci : to_int c.column_ = (c.column_ : Int) := to_int_of_lt _ (by omega)
  have hri : to_int c.row_ = (c.row_ : Int) := to_int_of_lt _ (by omega)
  have hdef : c.make_offset k dc dr =
      cell_reference.of_column_row k (to_unsigned ((c.column_ : Int) + dc))
        (to_unsigned ((c.row_ : Int) + dr)) := by
    unfold cell_reference.make_offset
    rw [hci, hri]
  have hin : (1 ≤ (c.column_ : Int) + dc ∧ (c.column_ : Int) + dc ≤ k.MaxColumn ∧
        1 ≤ (c.row_ : Int) + dr ∧ (c.row_ : Int) + dr ≤ k.MaxRow) →
      c.make_offset k dc dr =
        .ok ⟨((c.column_ : Int) + dc).toNat, ((c.row_ : Int) + dr).toNat, false, false⟩ := by
    rintro ⟨h1, h2, h3, h4⟩
    rw [hdef, to_unsigned_in_range _ (by omega) (by omega),
      to_unsigned_in_range _ (by omega) (by omega)]
    exact of_column_row_in_grid k _ _ (by omega)
  have hout : ¬ (1 ≤ (c.column_ : Int) + dc ∧ (c.column_ : Int) + dc ≤ k.MaxColumn ∧
        1 ≤ (c.row_ : Int) + dr ∧ (c.row_ : Int) + dr ≤ k.MaxRow) →
      c.make_offset k dc dr =
        .error (.CoordinateOutOfRange (to_unsigned ((c.column_ : Int) + dc))
          (to_unsigned ((c.row_ : Int) + dr))) := by
    intro hn
    rw [hdef]
    apply of_column_row_outside_grid
    intro hgrid
    apply hn
    have hcol : 0 ≤ (c.column_ : Int) + dc := by
      by_contra hneg
      have := to_unsigned_negative _ hsc1 (by omega)
      omega
    have hrow : 0 ≤ (c.row_ : Int) + dr := by
      by_contra hneg
      have := to_unsigned_negative _ hsr1 (by omega)
      omega
    rw [to_unsigned_in_range _ hcol (by omega), to_unsigned_in_range _ hrow (by omega)] at hgrid
    omega
  refine ⟨hin, hout, ?_⟩
  constructor
  · rintro ⟨col, row, herr⟩ hrange
    rw [hin hrange] at herr
    cases herr
  · intro hn
    exact ⟨_, _, hout hn⟩

/-- Witness of the amended C13: "B2" offset by (1, 1) is the reference parsed from "C3", and
"A1" offset by (-1, 0) fails with the coordinates 0 and 1. -/
theorem make_offset_bounds_witness :
    cell_reference.of_string "B2".toList = .ok ⟨2, 2, false, false⟩ ∧
      cell_reference.make_offset sample_limits ⟨2, 2, false, false⟩ 1 1 =
        cell_reference.of_string "C3".toList ∧
      cell_reference.of_string "A1".toList = .ok ⟨1, 1, false, false⟩ ∧
      cell_reference.make_offset sample_limits ⟨1, 1, false, false⟩ (-1) 0 =
        .error (.CoordinateOutOfRange 0 1) :=
  ⟨by decide,
   ((make_offset_bounds sample_limits ⟨2, 2, false, false⟩ 1 1 (by decide) (by decide)
      (by decide) (by decide) (by decide) (by decide) (by decide)).1 (by decide)).trans
      (by decide),
   by decide,
   (make_offset_bounds sample_limits ⟨1, 1, false, false⟩ (-1) 0 (by decide) (by decide)
      (by decide) (by decide) (by decide) (by decide) (by decide)).2.1 (by decide)⟩


theorem of_column_row_outcomes (k : constants) (x y : Nat) :
    (∃ col row, cell_reference.of_column_row k x y = .error (.CoordinateOutOfRange col row)) ∨
      (∃ r, cell_reference.of_column_row k x y = .ok r) := by
  by_cases hin : 1 ≤ x ∧ x ≤ k.MaxColumn ∧ 1 ≤ y ∧ y ≤ k.MaxRow
  · exact Or.inr ⟨_, of_column_row_in_grid k x y hin⟩
  · exact Or.inl ⟨_, _, of_column_row_outside_grid k x y hin⟩

theorem make_offset_zero (k : constants) (c : cell_reference) (hv : c.valid k) :
    c.make_offset k 0 0 = .ok ⟨c.column_, c.row_, false, false⟩ := by
  obtain ⟨hv1, hv2, hv3, hv4⟩ := hv
  have hmc := k.MaxColumn_fits
  have hmr := k.MaxRow_fits
  unfold cell_reference.make_offset
  rw [Int.add_zero, Int.add_zero, to_unsigned_to_int _ (by omega), to_unsigned_to_int _ (by omega)]
  exact of_column_row_in_grid k _ _ ⟨hv1, hv2, hv3, hv4⟩

/-- C20: offsets compose additively. Let `c` be a reference inside the grid and
`(a, b)`, `(d, e)` deltas with no overflow of the `int` in any sum, the sums
being formed from the coordinates converted to `int`. If `c.make_offset(a, b)`
succeeds with `c1`, then `c1.make_offset(d, e)` and `c.make_offset(a + d, b +
e)` either both fail with the coordinate exception or are equal references;
`c1.make_offset(-a, -b)` succeeds and has the column and row of `c`; and
`c.make_offset(0, 0)` has the column and row of `c` with both flags unset. -/
theorem make_offset_additive (k : constants) (c c1 : cell_reference) (a b d e : Int)
    (hv : c.valid k)
    (_ha : fits_int a) (_hb : fits_int b) (_hd : fits_int d) (_he : fits_int e)
    (_hca : fits_int (to_int c.column_ + a)) (_hrb : fits_int (to_int c.row_ + b))
    (_had : fits_int (a + d)) (_hbe : fits_int (b + e))
    (_hcad : fits_int (to_int c.column_ + (a + d)))
    (_hrbe : fits_int (to_int c.row_ + (b + e)))
    (h1 : c.make_offset k a b = .ok c1) :
    ((∃ col row, c1.make_offset k d e = .error (.CoordinateOutOfRange col row) ∧
          c.make_offset k (a + d) (b + e) = .error (.CoordinateOutOfRange col row)) ∨
        (∃ x y, c1.make_offset k d e = .ok x ∧ c.make_offset k (a + d) (b + e) = .ok y ∧
          x.operator_eq y = true)) ∧
    (fits_int (-a) → fits_int (-b) →
      c1.make_offset k (-a) (-b) = .ok ⟨c.column_, c.row_, false, false⟩) ∧
    c.make_offset k 0 0 = .ok ⟨c.column_, c.row_, false, false⟩ := by
  have htwice := make_offset_twice k c c1 a b d e h1
  refine ⟨?_, ?_, make_offset_zero k c hv⟩
  · rw [htwice]
    rcases of_column_row_outcomes k (to_unsigned (to_int c.column_ + (a + d)))
        (to_unsigned (to_int c.row_ + (b + e))) with ⟨col, row, herr⟩ | ⟨r, hok⟩
    · exact Or.inl ⟨col, row, herr, herr⟩
    · refine Or.inr ⟨r, r, hok, hok, ?_⟩
      rw [operator_eq_iff]
      exact ⟨rfl, rfl, rfl, rfl⟩
  · intro _ _
    rw [make_offset_twice k c c1 a b (-a) (-b) h1, Int.add_right_neg, Int.add_right_neg]
    exact make_offset_zero k c hv

/-- Witness of C20: from "B2", the offsets (1, 1) and then (2, 3) give the same
reference as the single offset (3, 4); going back by (-1, -1) gives column 2,
row 2 again. -/
theorem make_offset_additive_witness :
    ((∃ col row,
          cell_reference.make_offset sample_limits ⟨3, 3, false, false⟩ 2 3 =
              .error (.CoordinateOutOfRange col row) ∧
            cell_reference.make_offset sample_limits ⟨2, 2, false, false⟩ (1 + 2) (1 + 3) =
              .error (.CoordinateOutOfRange col row)) ∨
        (∃ x y,
          cell_reference.make_offset sample_limits ⟨3, 3, false, false⟩ 2 3 = .ok x ∧
            cell_reference.make_offset sample_limits ⟨2, 2, false, false⟩ (1 + 2) (1 + 3) =
              .ok y ∧
            x.operator_eq y = true)) ∧
      cell_reference.make_offset sample_limits ⟨3, 3, false, false⟩ (-1) (-1) =
        .ok ⟨2, 2, false, false⟩ :=
  have h := make_offset_additive sample_limits ⟨2, 2, false, false⟩ ⟨3, 3, false, false⟩ 1 1 2 3
    (by decide) (by decide) (by decide) (by decide) (by decide) (by decide) (by decide)
    (by decide) (by decide) (by decide) (by decide) (by decide)
  ⟨h.1, h.2.1 (by decide) (by decide)⟩

/-! ## The column buffer during the loop -/

theorem scan_step_ok_any_text (rs rs1 : List Char) (st st1 : scan_state) (c : Char)
    (h : scan_step rs st c = .ok st1) : scan_step rs1 st c = .ok st1 := by
  unfold scan_step at h ⊢
  split_ifs at h ⊢ <;> exact h

theorem scan_from_ok_any_text (rs rs1 : List Char) (l : List Char) (st st1 : scan_state)
    (h : scan_from rs l st = .ok st1) : scan_from rs1 l st = .ok st1 := by
  induction l generalizing st with
  | nil => exact h
  | cons c t ih =>
    rw [scan_from] at h ⊢
    cases hstep : scan_step rs st c with
    | error e => rw [hstep] at h; cases h
    | ok st2 =>
      rw [hstep] at h
      rw [scan_step_ok_any_text rs rs1 st st2 c hstep]
      exact ih st2 h

theorem scan_ok_buffer (s : List Char) (st : scan_state) (h : scan s = .ok st) :
    st.column_string =
      leading_anchor s ++ ((after_anchor s).takeWhile isalpha).map toupper := by
  rw [scan_closed] at h
  cases hR : (after_anchor s).dropWhile isalpha with
  | nil =>
    rw [hR] at h
    cases h
    rfl
  | cons c R =>
    rw [hR] at h
    by_cases hall : R.all row_character = true
    · simp only [hall, if_true] at h
      cases h
      rfl
    · simp only [hall] at h
      cases h

theorem toupper_dollar : toupper '$' = '$' := by decide

theorem leading_anchor_upper (s : List Char) :
    (leading_anchor s).map toupper = leading_anchor s := by
  rcases leading_anchor_cases s with h | h <;> rw [h]
  · simp [toupper_dollar]
  · rfl

theorem text_split (s : List Char) :
    s = leading_anchor s ++ (after_anchor s).takeWhile isalpha ++
      (after_anchor s).dropWhile isalpha := by
  rw [List.append_assoc, List.takeWhile_append_dropWhile, leading_anchor_append]

theorem buffer_form_of_scan (s : List Char) :
    buffer_form (leading_anchor s ++ ((after_anchor s).takeWhile isalpha).map toupper) := by
  refine ⟨decide (leading_anchor s = ['$']),
    ((after_anchor s).takeWhile isalpha).map toupper, ?_, ?_⟩
  · rw [← leading_anchor_eq_anchor]
  · intro c hc
    rw [List.mem_map] at hc
    obtain ⟨x, hx, rfl⟩ := hc
    exact isalpha_toupper (List.mem_takeWhile_imp hx)

theorem buffer_is_upper_front (s rest : List Char) :
    leading_anchor s ++ ((after_anchor s).takeWhile isalpha).map toupper =
      ((s ++ rest).take
        (leading_anchor s ++ ((after_anchor s).takeWhile isalpha).map toupper).length).map
        toupper := by
  have hlen : (leading_anchor s ++ ((after_anchor s).takeWhile isalpha).map toupper).length =
      (leading_anchor s ++ (after_anchor s).takeWhile isalpha).length := by simp
  have hs : s ++ rest = (leading_anchor s ++ (after_anchor s).takeWhile isalpha) ++
      ((after_anchor s).dropWhile isalpha ++ rest) := by
    conv_lhs => rw [text_split s]
    simp only [List.append_assoc]
  rw [hlen, hs, List.take_left, List.map_append, leading_anchor_upper]

/-- C17: throughout the loop of `split_reference` the column buffer is the
upper-cased front of the input of the same length and has the form "at most
one leading $, then letters only" (the state `st` is the one reached after the
characters `front` of the input `front ++ rest`); and when the loop finishes,
slicing the input at the length of the buffer yields the part of the input
not placed in the buffer, `upper(input) = buffer ++ upper(row text)`, and the
row text, if it is not empty, starts with a character that is not a letter. -/
theorem scan_buffer_invariant :
    (∀ (front rest : List Char) (st : scan_state),
      scan_from (front ++ rest) front ⟨true, []⟩ = .ok st →
        st.column_string =
            ((front ++ rest).take st.column_string.length).map toupper ∧
          buffer_form st.column_string) ∧
    (∀ (s : List Char) (st : scan_state), scan s = .ok st →
      s.map toupper =
          st.column_string ++ (s.drop st.column_string.length).map toupper ∧
        (∀ c, (s.drop st.column_string.length).head? = some c → isalpha c = false)) := by
  constructor
  · intro front rest st h
    have hfront : scan front = .ok st := scan_from_ok_any_text _ front front _ st h
    have hbuf := scan_ok_buffer front st hfront
    rw [hbuf]
    exact ⟨buffer_is_upper_front front rest, buffer_form_of_scan front⟩
  · intro s st h
    have hbuf := scan_ok_buffer s st h
    rw [hbuf, drop_buffer]
    constructor
    · conv_lhs => rw [text_split s]
      rw [List.map_append, List.map_append, leading_anchor_upper]
    · intro c hc
      cases hR : (after_anchor s).dropWhile isalpha with
      | nil => rw [hR] at hc; cases hc
      | cons x R =>
        rw [hR] at hc
        simp only [List.head?_cons, Option.some.injEq] at hc
        subst hc
        exact dropWhile_head_not_alpha _ x R hR

/-- Witness of C17: after the characters "$b1" of "$b12" the buffer is "$B", the
upper-cased two first characters; and at the end of "$b12" the row text is
"12". -/
theorem scan_buffer_invariant_witness :
    (['$', 'B'] = ("$b12".toList.take 2).map toupper ∧ buffer_form ['$', 'B']) ∧
      ("$b12".toList.map toupper = ['$', 'B'] ++ ("$b12".toList.drop 2).map toupper ∧
        ∀ c, ("$b12".toList.drop 2).head? = some c → isalpha c = false) :=
  ⟨scan_buffer_invariant.1 "$b1".toList "2".toList ⟨false, ['$', 'B']⟩ (by decide),
   scan_buffer_invariant.2 "$b12".toList ⟨false, ['$', 'B']⟩ (by decide)⟩

/-- C16, evaluated on the code: on "123" and on "1" neither the loop nor the
empty-row check throws, and the column buffer is empty when `column_string[0]`
is read; the row text is not empty there. -/
theorem column_read_on_empty_buffer :
    texts_at_reads "123".toList = some ([], "123".toList) ∧
      texts_at_reads "1".toList = some ([], "1".toList) := by
  decide


/-! ## Upper-casing the input -/

theorem toupper_of_not_alpha {c : Char} (h : isalpha c = false) : toupper c = c := by
  unfold toupper
  rw [if_neg]
  intro hc
  simp only [isalpha, Bool.or_eq_false_iff, Bool.and_eq_false_iff, decide_eq_false_iff_not] at h
  omega

theorem isalpha_toupper_eq (c : Char) : isalpha (toupper c) = isalpha c := by
  cases h : isalpha c
  · rw [toupper_of_not_alpha h, h]
  · exact isalpha_toupper h

theorem toupper_idem (c : Char) : toupper (toupper c) = toupper c := by
  by_cases hc : 97 ≤ c.toNat ∧ c.toNat ≤ 122
  · have hn : ∀ n : Nat, 97 ≤ n ∧ n ≤ 122 →
        toupper (Char.ofNat (n - 32)) = Char.ofNat (n - 32) := by
      intro n hn
      obtain ⟨h1, h2⟩ := hn
      interval_cases n <;> decide
    have hu : toupper c = Char.ofNat (c.toNat - 32) := by
      unfold toupper
      rw [if_pos hc]
    rw [hu]
    exact hn c.toNat hc
  · have hu : toupper c = c := by
      unfold toupper
      rw [if_neg hc]
    rw [hu, hu]

theorem toupper_eq_dollar (c : Char) : toupper c = '$' ↔ c = '$' := by
  constructor
  · intro h
    cases ha : isalpha c
    · rw [toupper_of_not_alpha ha] at h
      exact h
    · exact absurd h (isalpha_ne_dollar (isalpha_toupper ha))
  · rintro rfl
    exact toupper_dollar

theorem row_character_toupper (c : Char) : row_character (toupper c) = row_character c := by
  cases ha : isalpha c
  · rw [toupper_of_not_alpha ha]
  · have h1 : row_character c = false := by
      cases hd : isdigit c
      · simp [row_character, hd, isalpha_ne_dollar ha]
      · rw [isdigit_not_isalpha hd] at ha
        cases ha
    have ha2 := isalpha_toupper ha
    have h2 : row_character (toupper c) = false := by
      cases hd : isdigit (toupper c)
      · simp [row_character, hd, isalpha_ne_dollar ha2]
      · rw [isdigit_not_isalpha hd] at ha2
        cases ha2
    rw [h1, h2]

theorem row_character_fixed {c : Char} (h : row_character c = true) : toupper c = c := by
  apply toupper_of_not_alpha
  cases ha : isalpha c
  · rfl
  · have := row_character_toupper c
    have h1 : row_character c = false := by
      cases hd : isdigit c
      · simp [row_character, hd, isalpha_ne_dollar ha]
      · rw [isdigit_not_isalpha hd] at ha
        cases ha
    rw [h1] at h
    cases h

theorem after_anchor_upper (s : List Char) :
    after_anchor (s.map toupper) = (after_anchor s).map toupper := by
  cases s with
  | nil => rfl
  | cons c t =>
    by_cases hc : c = '$'
    · subst hc
      simp [after_anchor, toupper_dollar]
    · have hu : toupper c ≠ '$' := fun h => hc ((toupper_eq_dollar c).mp h)
      simp [after_anchor, hc, hu]

theorem leading_anchor_of_upper (s : List Char) :
    leading_anchor (s.map toupper) = leading_anchor s := by
  cases s with
  | nil => rfl
  | cons c t =>
    by_cases hc : c = '$'
    · subst hc
      simp [leading_anchor, toupper_dollar]
    · have hu : toupper c ≠ '$' := fun h => hc ((toupper_eq_dollar c).mp h)
      simp [leading_anchor, hc, hu]

theorem takeWhile_upper (t : List Char) :
    (t.map toupper).takeWhile isalpha = (t.takeWhile isalpha).map toupper := by
  induction t with
  | nil => rfl
  | cons c t ih =>
    simp only [List.map_cons, List.takeWhile_cons, isalpha_toupper_eq]
    cases isalpha c
    · rfl
    · simp [ih]

theorem dropWhile_upper (t : List Char) :
    (t.map toupper).dropWhile isalpha = (t.dropWhile isalpha).map toupper := by
  induction t with
  | nil => rfl
  | cons c t ih =>
    simp only [List.map_cons, List.dropWhile_cons, isalpha_toupper_eq]
    cases isalpha c
    · rfl
    · simp [ih]

theorem all_row_character_upper (R : List Char) :
    (R.map toupper).all row_character = R.all row_character := by
  induction R with
  | nil => rfl
  | cons c R ih => simp only [List.map_cons, List.all_cons, row_character_toupper, ih]

theorem map_upper_fixed (R : List Char) (h : R.all row_character = true) :
    R.map toupper = R := by
  induction R with
  | nil => rfl
  | cons c R ih =>
    simp only [List.all_cons, Bool.and_eq_true] at h
    rw [List.map_cons, row_character_fixed h.1, ih h.2]

/-- What upper-casing the input changes in `split_reference`: nothing but the
text carried by the reference exception. -/
theorem split_reference_upper (s : List Char) :
    split_reference (s.map toupper) =
      match split_reference s with
      | .ok r => .ok r
      | .error (.MalformedReference _) => .error (.MalformedReference (s.map toupper))
      | .error e => .error e := by
  rw [split_reference_closed (s.map toupper), split_reference_closed s, after_anchor_upper,
    leading_anchor_of_upper, takeWhile_upper, dropWhile_upper]
  cases hR : (after_anchor s).dropWhile isalpha with
  | nil => rfl
  | cons c R =>
    have hc : toupper c = c := toupper_of_not_alpha (dropWhile_head_not_alpha _ c R hR)
    simp only [List.map_cons, hc, all_row_character_upper, List.map_map]
    have hidem : (toupper ∘ toupper) = toupper := funext toupper_idem
    rw [hidem]
    by_cases hall : R.all row_character = true
    · simp only [hall, if_true, map_upper_fixed R hall]
      cases hrow : string_to_row (if c = '$' then R else c :: R) with
      | ok row => rfl
      | error e =>
        have he := string_to_row_error _ e hrow
        subst he
        rfl
    · simp only [hall]
      rfl

theorem of_string_upper (s : List Char) :
    cell_reference.of_string (s.map toupper) =
      match cell_reference.of_string s with
      | .ok r => .ok r
      | .error (.MalformedReference _) => .error (.MalformedReference (s.map toupper))
      | .error e => .error e := by
  unfold cell_reference.of_string
  rw [split_reference_upper]
  cases hsplit : split_reference s with
  | ok r =>
    simp only []
    cases hcol : cell_reference.set_column
        { column_ := 0, row_ := 0, absolute_row_ := r.absolute_row,
          absolute_column_ := r.absolute_column } r.first with
    | ok r1 => rfl
    | error e =>
      unfold cell_reference.set_column at hcol
      cases hidx : column_index_from_string r.first with
      | ok index => rw [hidx] at hcol; cases hcol
      | error e1 =>
        have he := column_index_from_string_error _ e1 hidx
        subst he
        rw [hidx] at hcol
        cases hcol
        rfl
  | error e =>
    cases e <;> rfl

/-- C14: parsing does not depend on the case of the letters: for every text `x`,
parsing `x` and parsing `x` with its letters upper-cased either both fail with
the same kind of exception or both succeed with equal references (the same
column, row and flags); and "a1" parses to the reference whose `to_string` is
"A1". -/
theorem of_string_case_insensitive (x : List Char) :
    same_outcome (cell_reference.of_string x) (cell_reference.of_string (x.map toupper)) ∧
      (∀ r, cell_reference.of_string x = .ok r ↔
        cell_reference.of_string (x.map toupper) = .ok r) ∧
      (∃ r, cell_reference.of_string "a1".toList = .ok r ∧ r.to_string = "A1".toList) := by
  have hup := of_string_upper x
  refine ⟨?_, ?_, ⟨⟨1, 1, false, false⟩, by decide, by decide⟩⟩
  · rw [hup]
    cases hx : cell_reference.of_string x with
    | ok r =>
      simp only [same_outcome]
      rw [operator_eq_iff]
      exact ⟨rfl, rfl, rfl, rfl⟩
    | error e =>
      cases e <;> simp [same_outcome, exception.kind]
  · intro r
    rw [hup]
    cases hx : cell_reference.of_string x with
    | ok r1 => simp
    | error e => cases e <;> simp

end xlnt
